import Mathlib

/-!
Verification of `calc_offsets.py`, a Z80 assembly label-offset calculator.
The Python source is shallowly embedded: characters are `Char`, strings are
`String` / `List Char`, Python integers are `Int` (or `Nat` where the source
value is provably non-negative), and Python exceptions are `Option`.
-/

namespace CalcOffsets

/-- Character lists, the working representation of Python strings. -/
abbrev Chars := List Char

/-- The single-quote character (ASCII 39). -/
def squote : Char := Char.ofNat 39

/-- The double-quote character (ASCII 34). -/
def dquote : Char := Char.ofNat 34

/-- Python `str.strip()` whitespace: space, tab, newline, carriage return,
vertical tab, form feed (the ASCII whitespace stripped by Python). -/
def isPyWS (c : Char) : Bool :=
  c == ' ' || c == '\t' || c == '\n' || c == '\r' || c == Char.ofNat 11 || c == Char.ofNat 12

/-- Strip trailing whitespace, as Python `str.rstrip()`. -/
def rstripWS (l : Chars) : Chars :=
  (l.reverse.dropWhile isPyWS).reverse

/-- Strip leading and trailing whitespace, as Python `str.strip()`. -/
def pyStrip (l : Chars) : Chars :=
  rstripWS (l.dropWhile isPyWS)

/-- Python `str.lower()` (ASCII model). -/
def lowerStr (l : Chars) : Chars := l.map Char.toLower

/-- A regex `\w` word character (ASCII model): letter, digit or underscore. -/
def isWordChar (c : Char) : Bool := c.isAlpha || c.isDigit || c == '_'

/-- Structural boolean equality of char lists (reduces well on partially
concrete lists). -/
def eqChars : Chars → Chars → Bool
  | [], [] => true
  | a :: as, b :: bs => a == b && eqChars as bs
  | _, _ => false

/-- Membership of a char list in a list of char lists. -/
def membC (x : Chars) (l : List Chars) : Bool := l.any (eqChars x)

/-- Boolean prefix test, modelling `str.startswith` / an anchored regex
prefix. -/
def isPre : Chars → Chars → Bool
  | [], _ => true
  | _ :: _, [] => false
  | p :: ps, s :: ss => p == s && isPre ps ss

/-- First-success choice used to chain the ordered classifier rules
(the early `return`s of the Python cascade). -/
def orOpt {α : Type} (a b : Option α) : Option α :=
  match a with
  | some x => some x
  | none => b

/-- Source `split_commas` inner loop: split on commas outside quotes,
tracking the `in_quote` flag and pending `current` characters. -/
def split_commas_go : Chars → Bool → Char → Chars → List Chars
  | [], _, _, current => if current = [] then [] else [pyStrip current]
  | ch :: rest, inQ, qc, current =>
    if inQ then
      split_commas_go rest (!(ch == qc)) qc (current ++ [ch])
    else if ch == squote || ch == dquote then
      split_commas_go rest true ch (current ++ [ch])
    else if ch == ',' then
      pyStrip current :: split_commas_go rest false qc (([]) : Chars)
    else
      split_commas_go rest false qc (current ++ [ch])

/-- Source `split_commas`: split by commas respecting quoted strings. -/
def split_commas (s : String) : List String :=
  (split_commas_go s.data false ' ' []).map String.mk

/-- Byte contribution of a single (already stripped) `defb` item: a quoted
item of length L contributes L - 2, any other non-empty item contributes 1
(Python integer arithmetic, so a bare quote character contributes -1). -/
def count_defb_item (p : Chars) : Int :=
  if p = [] then 0
  else if (p.head? == some squote && p.getLast? == some squote)
       || (p.head? == some dquote && p.getLast? == some dquote) then
    (p.length : Int) - 2
  else 1

/-- Source `count_defb`: size in bytes reserved by a `defb` payload. -/
def count_defb (data : String) : Int :=
  ((split_commas data).map (fun p => count_defb_item (pyStrip p.data))).sum

/-- Source `count_defw`: two bytes per comma-separated item. -/
def count_defw (data : String) : Nat :=
  2 * (split_commas data).length

/-- The compiled-in `CONSTANTS` table of EQU constants, in source order
(substitution order matters for `eval_expr`). -/
def CONSTANTS : List (Chars × Nat) := [
  ("windowtop".data, 0), ("windowlft".data, 0), ("windowhgt".data, 24), ("windowwid".data, 32),
  ("numobj".data, 8), ("mapwid".data, 4),
  ("simask".data, 248), ("shrapn".data, 63926), ("scadtb".data, 64256), ("map".data, 64768),
  ("loopa".data, 23681), ("loopb".data, 23728), ("loopc".data, 23729),
  ("platfm".data, 1), ("wall".data, 2), ("ladder".data, 3), ("fodder".data, 4), ("deadly".data, 5),
  ("custom".data, 6), ("water".data, 7), ("colect".data, 8), ("numtyp".data, 9),
  ("numspr".data, 12), ("tabsiz".data, 17), ("sprbuf".data, 204), ("nmesiz".data, 4),
  ("x".data, 8), ("y".data, 9), ("pam1st".data, 5),
  ("numshr".data, 55), ("shrsiz".data, 6)]

/-- Decimal digits of a natural number, as characters. -/
def natToChars (n : Nat) : Chars := Nat.toDigits 10 n

/-- Hexadecimal digit test, the regex class `[0-9a-fA-F]`. -/
def isHexDigit (c : Char) : Bool :=
  c.isDigit || ('a' ≤ c && c ≤ 'f') || ('A' ≤ c && c ≤ 'F')

/-- Value of one hexadecimal digit. -/
def hexDigitVal (c : Char) : Nat :=
  if c.isDigit then c.toNat - 48 else if 'a' ≤ c then c.toNat - 87 else c.toNat - 55

/-- Value of a hexadecimal digit string, as Python `int(s, 16)` on valid
digits. -/
def hexToNat (l : Chars) : Nat := l.foldl (fun a c => a * 16 + hexDigitVal c) 0

/-- Value of a decimal digit string. -/
def decToNat (l : Chars) : Nat := l.foldl (fun a c => a * 10 + (c.toNat - 48)) 0

/-- One pass of `re.sub(r'\b k \b', v, s)` for a word `k`: replace each
whole-word occurrence, scanning left to right; `prevW` says whether the
previous character of the original text was a word character.  The fuel
argument makes the recursion structural so that the definition computes
by kernel reduction. -/
def substWordGo (k0 : Char) (ks : Chars) (v : Chars) : Nat → Chars → Bool → Chars
  | 0, s, _ => s
  | _ + 1, [], _ => []
  | fuel + 1, c :: rest, prevW =>
    if !prevW && isPre (k0 :: ks) (c :: rest)
       && (match rest.drop ks.length with
           | [] => true
           | d :: _ => !isWordChar d) then
      v ++ substWordGo k0 ks v fuel (rest.drop ks.length) true
    else
      c :: substWordGo k0 ks v fuel rest (isWordChar c)

/-- Whole-word substitution `re.sub(r'\b'+k+r'\b', v, s)` (all constant
names are non-empty words, so the boundary after a match is a word
character). -/
def substWord (k : Chars) (v : Chars) (s : Chars) : Chars :=
  match k with
  | [] => s
  | k0 :: ks => substWordGo k0 ks v (s.length + 1) s false

/-- Substitute every known constant name by its decimal value, in table
order, as the source's loop over `CONSTANTS.items()`. -/
def substConstants (s : Chars) : Chars :=
  CONSTANTS.foldl (fun e kv => substWord kv.1 (natToChars kv.2) e) s

/-- The `re.sub(r'\$([0-9a-fA-F]+)', ...)` pass: each `$`-prefixed hex
literal becomes its decimal spelling. -/
def substDollarHex : Nat → Chars → Chars
  | 0, s => s
  | _ + 1, [] => []
  | fuel + 1, c :: rest =>
    if c == '$' then
      let ds := rest.takeWhile isHexDigit
      if ds = [] then c :: substDollarHex fuel rest
      else natToChars (hexToNat ds) ++ substDollarHex fuel (rest.dropWhile isHexDigit)
    else c :: substDollarHex fuel rest

/-- The `re.sub(r'0x([0-9a-fA-F]+)', ...)` pass. -/
def substZeroXHex : Nat → Chars → Chars
  | 0, s => s
  | _ + 1, [] => []
  | fuel + 1, c :: rest =>
    if c == '0' then
      match rest with
      | x :: rest2 =>
        if x == 'x' then
          let ds := rest2.takeWhile isHexDigit
          if ds = [] then c :: substZeroXHex fuel rest
          else natToChars (hexToNat ds) ++ substZeroXHex fuel (rest2.dropWhile isHexDigit)
        else c :: substZeroXHex fuel rest
      | [] => [c]
    else c :: substZeroXHex fuel rest

/-- Tokens of the arithmetic expressions fed to Python `eval` by
`eval_expr` (integer literals, `+`, `-`, `*`, parentheses). -/
inductive Tok where
  | num : Nat → Tok
  | plus : Tok
  | minus : Tok
  | star : Tok
  | lparen : Tok
  | rparen : Tok
deriving DecidableEq

/-- Tokenizer for the arithmetic fragment; any other character makes the
whole evaluation fail (Python raises a `SyntaxError`/`NameError`).  A
multi-digit literal with a leading zero is rejected, as in Python 3. -/
def tokenizeGo : Nat → Chars → Option (List Tok)
  | 0, _ => none
  | _ + 1, [] => some []
  | fuel + 1, c :: rest =>
    if isPyWS c then tokenizeGo fuel rest
    else if c.isDigit then
      let ds := (c :: rest).takeWhile Char.isDigit
      if c == '0' && ds.any (fun d => !(d == '0')) then none
      else (tokenizeGo fuel ((c :: rest).dropWhile Char.isDigit)).map (Tok.num (decToNat ds) :: ·)
    else if c == '+' then (tokenizeGo fuel rest).map (Tok.plus :: ·)
    else if c == '-' then (tokenizeGo fuel rest).map (Tok.minus :: ·)
    else if c == '*' then (tokenizeGo fuel rest).map (Tok.star :: ·)
    else if c == '(' then (tokenizeGo fuel rest).map (Tok.lparen :: ·)
    else if c == ')' then (tokenizeGo fuel rest).map (Tok.rparen :: ·)
    else none

/-- Parser states for the recursive-descent arithmetic parser: a full
sum-of-terms expression, a product-of-factors term, a single factor, and
the two left-associative accumulator loops. -/
inductive PKind where
  | pexpr : PKind
  | pterm : PKind
  | pfactor : PKind
  | paddLoop : PKind
  | pmulLoop : PKind

/-- Fueled recursive-descent evaluator for the arithmetic fragment of
Python `eval` used by `eval_expr` (integer +, -, *, unary sign,
parentheses; left-associative, `*` binds tighter). -/
def parseA : Nat → PKind → Int → List Tok → Option (Int × List Tok)
  | 0, _, _, _ => none
  | fuel + 1, PKind.pfactor, _, ts =>
    match ts with
    | Tok.num n :: rest => some ((n : Int), rest)
    | Tok.plus :: rest => parseA fuel PKind.pfactor 0 rest
    | Tok.minus :: rest =>
      match parseA fuel PKind.pfactor 0 rest with
      | some (v, r) => some (-v, r)
      | none => none
    | Tok.lparen :: rest =>
      match parseA fuel PKind.pexpr 0 rest with
      | some (v, Tok.rparen :: r) => some (v, r)
      | _ => none
    | _ => none
  | fuel + 1, PKind.pterm, _, ts =>
    match parseA fuel PKind.pfactor 0 ts with
    | some (v, r) => parseA fuel PKind.pmulLoop v r
    | none => none
  | fuel + 1, PKind.pmulLoop, acc, ts =>
    match ts with
    | Tok.star :: rest =>
      match parseA fuel PKind.pfactor 0 rest with
      | some (v, r) => parseA fuel PKind.pmulLoop (acc * v) r
      | none => none
    | _ => some (acc, ts)
  | fuel + 1, PKind.pexpr, _, ts =>
    match parseA fuel PKind.pterm 0 ts with
    | some (v, r) => parseA fuel PKind.paddLoop v r
    | none => none
  | fuel + 1, PKind.paddLoop, acc, ts =>
    match ts with
    | Tok.plus :: rest =>
      match parseA fuel PKind.pterm 0 rest with
      | some (v, r) => parseA fuel PKind.paddLoop (acc + v) r
      | none => none
    | Tok.minus :: rest =>
      match parseA fuel PKind.pterm 0 rest with
      | some (v, r) => parseA fuel PKind.paddLoop (acc - v) r
      | none => none
    | _ => some (acc, ts)

/-- Model of `int(eval(e))` on the substituted expression text, restricted
to the arithmetic grammar the tool feeds it (integer addition,
subtraction, multiplication, unary sign, parentheses; see spec section
4.1): `some` is a successful evaluation, `none` is a raised exception. -/
def evalCore (e : Chars) : Option Int :=
  match tokenizeGo (e.length + 1) e with
  | some ts =>
    match parseA (4 * ts.length + 8) PKind.pexpr 0 ts with
    | some (v, []) => some v
    | _ => none
  | none => none

/-- The substituted text `e` that `eval_expr` builds before evaluating:
lower-cased, stripped, constants replaced, `$hex` and `0xhex` converted. -/
def eval_subst (expr : String) : Chars :=
  let e0 := pyStrip (lowerStr expr.data)
  let e1 := substConstants e0
  let e2 := substDollarHex (e1.length + 1) e1
  substZeroXHex (e2.length + 1) e2

/-- Source `eval_expr`: evaluate a simple expression with known constants;
on any failure print a diagnostic with the original and substituted text
and return 0.  The second component is the list of emitted diagnostics. -/
def eval_expr (expr : String) : Int × List String :=
  match evalCore (eval_subst expr) with
  | some v => (v, [])
  | none => (0, ["Cannot eval: " ++ expr ++ " -> " ++ String.mk (eval_subst expr)])

/-- Source `is_reg8`: the stripped operand is one of the 8-bit registers
a, b, c, d, e, h, l. -/
def is_reg8 (s : Chars) : Bool :=
  membC (pyStrip s) [['a'], ['b'], ['c'], ['d'], ['e'], ['h'], ['l']]

/-- Source `is_hl_indirect`: the stripped operand is exactly `(hl)`. -/
def is_hl_indirect (s : Chars) : Bool :=
  eqChars (pyStrip s) "(hl)".data

/-- Source `is_ixiy_indirect`: the stripped operand matches
`\((ix|iy)[+\-]`. -/
def is_ixiy_indirect (s : Chars) : Bool :=
  let t := pyStrip s
  isPre "(ix+".data t || isPre "(ix-".data t || isPre "(iy+".data t || isPre "(iy-".data t

/-- The capture class `[a-z_]\w*` of the simplified-instruction regexes:
a lowercase letter or underscore followed by word characters. -/
def isLowerIdent (l : Chars) : Bool :=
  match l with
  | [] => false
  | c :: rest => (c.isLower || c == '_') && rest.all isWordChar

/-- The "bare label" exclusion of the simplified rules: not a known
register-pair indirection name and not starting with `ix` or `iy`. -/
def bareLabelOk (lbl : Chars) : Bool :=
  !membC lbl ["hl".data, "bc".data, "de".data]
    && !isPre "ix".data lbl && !isPre "iy".data lbl

/-- Diagnostic text of a simplified-pseudo-instruction override. -/
def simplifiedMsg (ln : Nat) (what : String) (m : Chars) : String :=
  "  L" ++ toString ln ++ ": SIMPLIFIED " ++ what ++ ": " ++ String.mk m

/-- Classifier rule 1: `^ld hl,\((ix|iy)\+` — the simplified register-pair
load from an indexed pointer, 6 bytes. -/
def rule_ldhl (ln : Nat) (m : Chars) : Option (Nat × List String) :=
  if isPre "ld hl,(ix+".data m || isPre "ld hl,(iy+".data m then
    some (6, [simplifiedMsg ln "ld hl,(ix+d) -> 6 bytes" m])
  else none

/-- Match `^ld ([bcde]),\(([a-z_]\w*)\)$`, returning the register and the
captured label. -/
def ldsynthMatch (m : Chars) : Option (Char × Chars) :=
  match m with
  | c1 :: c2 :: c3 :: r :: c5 :: c6 :: rest =>
    if c1 == 'l' && c2 == 'd' && c3 == ' ' && c5 == ',' && c6 == '('
        && (r == 'b' || r == 'c' || r == 'd' || r == 'e') then
      match rest.getLast? with
      | some cl =>
        if cl == ')' then
          let lbl := rest.dropLast
          if isLowerIdent lbl then some (r, lbl) else none
        else none
      | none => none
    else none
  | _ => none

/-- Classifier rule 2: simplified `ld r,(label)` for r in b, c, d, e and a
bare label, 2 bytes. -/
def rule_ldsynth (ln : Nat) (m : Chars) : Option (Nat × List String) :=
  match ldsynthMatch m with
  | some (_, lbl) =>
    if bareLabelOk lbl then some (2, [simplifiedMsg ln "ld reg,(addr) -> 2 bytes" m])
    else none
  | none => none

/-- Match `^op \(([a-z_]\w*)\)$` for a fixed prefix `op (` already
removed: the remainder must be `label)` with a lower-ident label. -/
def parenLabelMatch (rest : Chars) : Option Chars :=
  match rest.getLast? with
  | some cl =>
    if cl == ')' then
      let lbl := rest.dropLast
      if isLowerIdent lbl then some lbl else none
    else none
  | none => none

/-- Match `^and \(([a-z_]\w*)\)$`, returning the captured label. -/
def andsynthMatch (m : Chars) : Option Chars :=
  match m with
  | c1 :: c2 :: c3 :: c4 :: c5 :: rest =>
    if c1 == 'a' && c2 == 'n' && c3 == 'd' && c4 == ' ' && c5 == '(' then
      parenLabelMatch rest
    else none
  | _ => none

/-- Classifier rule 3: simplified `and (label)` on a bare label, 2 bytes. -/
def rule_andsynth (ln : Nat) (m : Chars) : Option (Nat × List String) :=
  match andsynthMatch m with
  | some lbl =>
    if bareLabelOk lbl then some (2, [simplifiedMsg ln "and (addr) -> 2 bytes" m])
    else none
  | none => none

/-- Match `^add a,\(([a-z_]\w*)\)$`, returning the captured label. -/
def addsynthMatch (m : Chars) : Option Chars :=
  match m with
  | c1 :: c2 :: c3 :: c4 :: c5 :: c6 :: c7 :: rest =>
    if c1 == 'a' && c2 == 'd' && c3 == 'd' && c4 == ' ' && c5 == 'a' && c6 == ',' && c7 == '(' then
      parenLabelMatch rest
    else none
  | _ => none

/-- Classifier rule 4: simplified `add a,(label)` on a bare label,
2 bytes. -/
def rule_addsynth (ln : Nat) (m : Chars) : Option (Nat × List String) :=
  match addsynthMatch m with
  | some lbl =>
    if bareLabelOk lbl then some (2, [simplifiedMsg ln "add a,(addr) -> 2 bytes" m])
    else none
  | none => none

/-- The `simple1` set of fixed 1-byte instruction texts. -/
def simple1 : List Chars := [
  "nop".data, "ret".data, "ei".data, "di".data, "halt".data, "exx".data, "ccf".data,
  "scf".data, "cpl".data, "rra".data, "rrca".data, "rla".data, "rlca".data, "daa".data,
  "ex de,hl".data, "ex af,af".data ++ [squote], "ex (sp),hl".data,
  "jp (hl)".data, "ld sp,hl".data]

/-- Classifier rule 5: fixed 1-byte instructions. -/
def rule_simple1 (m : Chars) : Option (Nat × List String) :=
  if membC m simple1 then some (1, []) else none

/-- Classifier rule 6: `^ret (nz|z|nc|c|po|pe|p|m)$`, 1 byte. -/
def rule_retcc (m : Chars) : Option (Nat × List String) :=
  if membC m ["ret nz".data, "ret z".data, "ret nc".data, "ret c".data,
              "ret po".data, "ret pe".data, "ret p".data, "ret m".data] then
    some (1, [])
  else none

/-- Classifier rule 7: `rst ` prefixed restart calls, 1 byte. -/
def rule_rst (m : Chars) : Option (Nat × List String) :=
  if isPre "rst ".data m then some (1, []) else none

/-- The register cases of the push/pop rule, on the `\w+$` operand. -/
def pushpop_go (rest : Chars) : Option (Nat × List String) :=
  if !rest.isEmpty && rest.all isWordChar then
    if membC rest ["af".data, "bc".data, "de".data, "hl".data] then some (1, [])
    else if eqChars rest "ix".data || eqChars rest "iy".data then some (2, [])
    else none
  else none

/-- Classifier rule 8: `^(push|pop) (\w+)$` — primary pairs 1 byte,
indexed pointers 2 bytes, anything else falls through. -/
def rule_pushpop (m : Chars) : Option (Nat × List String) :=
  if isPre "push ".data m then pushpop_go (m.drop 5)
  else if isPre "pop ".data m then pushpop_go (m.drop 4)
  else none

/-- Classifier rule 9: `^ex \(sp\),(ix|iy)$`, 2 bytes. -/
def rule_exsp (m : Chars) : Option (Nat × List String) :=
  if membC m ["ex (sp),ix".data, "ex (sp),iy".data] then some (2, []) else none

/-- Classifier rule 10: `jp (ix)` / `jp (iy)`, 2 bytes. -/
def rule_jpixiy (m : Chars) : Option (Nat × List String) :=
  if membC m ["jp (ix)".data, "jp (iy)".data] then some (2, []) else none

/-- Classifier rule 11: `neg`, 2 bytes. -/
def rule_neg (m : Chars) : Option (Nat × List String) :=
  if eqChars m "neg".data then some (2, []) else none

/-- Classifier rule 12: `reti` / `retn`, 2 bytes. -/
def rule_retin (m : Chars) : Option (Nat × List String) :=
  if membC m ["reti".data, "retn".data] then some (2, []) else none

/-- Classifier rule 13: `^im [012]$`, 2 bytes. -/
def rule_im (m : Chars) : Option (Nat × List String) :=
  if membC m ["im 0".data, "im 1".data, "im 2".data] then some (2, []) else none

/-- Classifier rule 14: accumulator/interrupt-register transfers
(ED prefix), 2 bytes. -/
def rule_ldair (m : Chars) : Option (Nat × List String) :=
  if membC m ["ld a,i".data, "ld a,r".data, "ld i,a".data, "ld r,a".data] then
    some (2, [])
  else none

/-- Classifier rule 15: `rrd` / `rld`, 2 bytes. -/
def rule_rrdrld (m : Chars) : Option (Nat × List String) :=
  if membC m ["rrd".data, "rld".data] then some (2, []) else none

/-- Classifier rule 16: block instructions (ED prefix), 2 bytes. -/
def rule_block (m : Chars) : Option (Nat × List String) :=
  if membC m ["ldir".data, "lddr".data, "cpir".data, "cpdr".data, "inir".data,
              "indr".data, "otir".data, "otdr".data, "ldi".data, "ldd".data,
              "cpi".data, "cpd".data, "ini".data, "ind".data, "outi".data,
              "outd".data] then
    some (2, [])
  else none

/-- The operand cascade of the inc/dec rule (8-bit or `(hl)` 1, pair 1,
`ix`/`iy` 2, indexed-indirect 3, otherwise fall through). -/
def incdec_go (rest : Chars) : Option (Nat × List String) :=
  if !rest.isEmpty && !rest.contains '\n' then
    let operand := pyStrip rest
    if is_reg8 operand || is_hl_indirect operand then some (1, [])
    else if membC operand ["bc".data, "de".data, "hl".data, "sp".data] then some (1, [])
    else if eqChars operand "ix".data || eqChars operand "iy".data then some (2, [])
    else if is_ixiy_indirect operand then some (3, [])
    else none
  else none

/-- Classifier rule 17: `^(inc|dec) (.+)$` with the operand cascade of the
source. -/
def rule_incdec (m : Chars) : Option (Nat × List String) :=
  if isPre "inc ".data m then incdec_go (m.drop 4)
  else if isPre "dec ".data m then incdec_go (m.drop 4)
  else none

/-- Classifier rule 18: `^add hl,(bc|de|hl|sp)$`, 1 byte. -/
def rule_addhl (m : Chars) : Option (Nat × List String) :=
  if membC m ["add hl,bc".data, "add hl,de".data, "add hl,hl".data, "add hl,sp".data] then
    some (1, [])
  else none

/-- Classifier rule 19: `^(adc|sbc) hl,(bc|de|hl|sp)$` (ED prefix),
2 bytes. -/
def rule_adcsbchl (m : Chars) : Option (Nat × List String) :=
  if membC m ["adc hl,bc".data, "adc hl,de".data, "adc hl,hl".data, "adc hl,sp".data,
              "sbc hl,bc".data, "sbc hl,de".data, "sbc hl,hl".data, "sbc hl,sp".data] then
    some (2, [])
  else none

/-- Classifier rule 20: `^add (ix|iy),(bc|de|ix|iy|sp)$`, 2 bytes. -/
def rule_addixiy (m : Chars) : Option (Nat × List String) :=
  if membC m ["add ix,bc".data, "add ix,de".data, "add ix,ix".data, "add ix,iy".data,
              "add ix,sp".data, "add iy,bc".data, "add iy,de".data, "add iy,ix".data,
              "add iy,iy".data, "add iy,sp".data] then
    some (2, [])
  else none

/-- Classifier rule 21: `^(bit|set|res) ([0-7]),(.+)$` — register or
`(hl)` operand 2 bytes, indexed-indirect 4 bytes. -/
def rule_bit (m : Chars) : Option (Nat × List String) :=
  match m with
  | c1 :: c2 :: c3 :: c4 :: d :: c6 :: rest =>
    if membC [c1, c2, c3] ["bit".data, "set".data, "res".data] && c4 == ' '
        && ('0' ≤ d && d ≤ '7') && c6 == ',' && !rest.isEmpty && !rest.contains '\n' then
      let operand := pyStrip rest
      if is_reg8 operand || is_hl_indirect operand then some (2, [])
      else if is_ixiy_indirect operand then some (4, [])
      else none
    else none
  | _ => none

/-- Classifier rule 22: `^(rl|rr|rlc|rrc|sla|sra|srl|sll) (.+)$` — register
or `(hl)` operand 2 bytes, indexed-indirect 4 bytes. -/
def rule_rot (m : Chars) : Option (Nat × List String) :=
  let op := m.takeWhile (fun c => !(c == ' '))
  if membC op ["rl".data, "rr".data, "rlc".data, "rrc".data,
               "sla".data, "sra".data, "srl".data, "sll".data] then
    let rest := m.drop (op.length + 1)
    if op.length < m.length && !rest.isEmpty && !rest.contains '\n' then
      let operand := pyStrip rest
      if is_reg8 operand || is_hl_indirect operand then some (2, [])
      else if is_ixiy_indirect operand then some (4, [])
      else none
    else none
  else none

/-- Classifier rule 23: `jr ` / `djnz ` relative branches, 2 bytes. -/
def rule_jr (m : Chars) : Option (Nat × List String) :=
  if isPre "jr ".data m || isPre "djnz ".data m then some (2, []) else none

/-- Classifier rule 24: `jp ` absolute jumps, 3 bytes. -/
def rule_jp (m : Chars) : Option (Nat × List String) :=
  if isPre "jp ".data m then some (3, []) else none

/-- Classifier rule 25: `call `, 3 bytes. -/
def rule_call (m : Chars) : Option (Nat × List String) :=
  if isPre "call ".data m then some (3, []) else none

/-- Classifier rule 26: `^in (\w+),\((.+)\)$` — both the register-indirect
and the immediate-port form are 2 bytes. -/
def rule_in (m : Chars) : Option (Nat × List String) :=
  if isPre "in ".data m then
    let rest := m.drop 3
    let w := rest.takeWhile isWordChar
    let after := rest.dropWhile isWordChar
    if !w.isEmpty && eqChars (after.take 2) [',', '('] then
      let t := after.drop 2
      match t.getLast? with
      | some cl =>
        if cl == ')' && !t.dropLast.isEmpty && !t.dropLast.contains '\n' then
          let port := pyStrip t.dropLast
          if eqChars port ['c'] then some (2, []) else some (2, [])
        else none
      | none => none
    else none
  else none

/-- Greedy split of `t` as `inner ++ ")," ++ w` with `w` a non-empty word
(the backtracking of `^out \((.+)\),(\w+)$` picks the last such split);
returns the captured `inner`. -/
def outSplit (t : Chars) : Option Chars :=
  (((List.range t.length).filter (fun i =>
      eqChars ((t.drop i).take 2) [')', ','] && !(t.take i).isEmpty
        && !(t.take i).contains '\n' && !(t.drop (i + 2)).isEmpty
        && (t.drop (i + 2)).all isWordChar)).getLast?).map (fun i => t.take i)

/-- Classifier rule 27: `^out \((.+)\),(\w+)$` — both forms 2 bytes. -/
def rule_out (m : Chars) : Option (Nat × List String) :=
  if isPre "out (".data m then
    match outSplit (m.drop 5) with
    | some inner =>
      let port := pyStrip inner
      if eqChars port ['c'] then some (2, []) else some (2, [])
    | none => none
  else none

/-- The inner case table of the `^ld (.+),(.+)$` rule, on the stripped
destination and source operands; `none` falls out of the `ld` block. -/
def ld_cases (dst src : Chars) : Option (Nat × List String) :=
  if is_reg8 dst && is_reg8 src then some (1, [])
  else if is_reg8 dst && is_hl_indirect src then some (1, [])
  else if is_hl_indirect dst && is_reg8 src then some (1, [])
  else if is_hl_indirect dst then some (2, [])
  else if is_reg8 dst && !(src.head? == some '(') then some (2, [])
  else if is_reg8 dst && is_ixiy_indirect src then some (3, [])
  else if is_ixiy_indirect dst && is_reg8 src then some (3, [])
  else if is_ixiy_indirect dst then some (4, [])
  else if eqChars dst ['a'] && (eqChars src "(bc)".data || eqChars src "(de)".data) then some (1, [])
  else if (eqChars dst "(bc)".data || eqChars dst "(de)".data) && eqChars src ['a'] then some (1, [])
  else if eqChars dst "sp".data && (eqChars src "ix".data || eqChars src "iy".data) then some (2, [])
  else if membC dst ["bc".data, "de".data, "hl".data, "sp".data] then
    (if src.head? == some '(' then
      (if is_ixiy_indirect src then some (3, [])
       else if eqChars dst "hl".data then some (3, [])
       else some (4, []))
     else some (3, []))
  else if eqChars dst "ix".data || eqChars dst "iy".data then some (4, [])
  else if dst.head? == some '(' && !is_hl_indirect dst && !is_ixiy_indirect dst
          && !eqChars dst "(bc)".data && !eqChars dst "(de)".data then
    (if eqChars src ['a'] then some (3, [])
     else if eqChars src "hl".data then some (3, [])
     else if membC src ["bc".data, "de".data, "sp".data] then some (4, [])
     else if eqChars src "ix".data || eqChars src "iy".data then some (4, [])
     else none)
  else if eqChars dst ['a'] && src.head? == some '('
          && !membC src ["(bc)".data, "(de)".data, "(hl)".data] && !is_ixiy_indirect src then
    some (3, [])
  else none

/-- Split a char list around its last comma (the greedy `(.+),(.+)`
grouping). -/
def splitLastComma : Chars → Option (Chars × Chars)
  | [] => none
  | c :: rest =>
    match splitLastComma rest with
    | some (a, b) => some (c :: a, b)
    | none => if c == ',' then some ([], rest) else none

/-- Classifier rule 28: the `^ld (.+),(.+)$` load-family case table. -/
def rule_ld (m : Chars) : Option (Nat × List String) :=
  if isPre "ld ".data m then
    match splitLastComma (m.drop 3) with
    | some (g1, g2) =>
      if !g1.isEmpty && !g2.isEmpty && !g1.contains '\n' && !g2.contains '\n' then
        ld_cases (pyStrip g1) (pyStrip g2)
      else none
    | none => none
  else none

/-- One iteration of the ALU-operation loop: skip a bare mnemonic, accept
`op ` or `op,` prefixes, strip an optional `a,`, then size by operand
shape (register 1, `(hl)` 1, indexed-indirect 3, immediate 2). -/
def alu_try (op : Chars) (m : Chars) : Option (Nat × List String) :=
  if eqChars m op then none
  else if isPre (op ++ [' ']) m || isPre (op ++ [',']) m then
    let rest := pyStrip (m.drop op.length)
    let operand := if isPre "a,".data rest then pyStrip (rest.drop 2) else rest
    if is_reg8 operand then some (1, [])
    else if is_hl_indirect operand then some (1, [])
    else if is_ixiy_indirect operand then some (3, [])
    else some (2, [])
  else none

/-- Classifier rule 29: the accumulator ALU family, in source loop
order. -/
def rule_alu (m : Chars) : Option (Nat × List String) :=
  orOpt (alu_try "add".data m) (orOpt (alu_try "adc".data m)
    (orOpt (alu_try "sub".data m) (orOpt (alu_try "sbc".data m)
      (orOpt (alu_try "and".data m) (orOpt (alu_try "or".data m)
        (orOpt (alu_try "xor".data m) (alu_try "cp".data m)))))))

/-- The ordered rule cascade of `z80_size` (every `if ... return` of the
source, in order); `none` means no rule matched. -/
def z80_rules (ln : Nat) (m : Chars) : Option (Nat × List String) :=
  orOpt (rule_ldhl ln m) (orOpt (rule_ldsynth ln m)
  (orOpt (rule_andsynth ln m) (orOpt (rule_addsynth ln m)
  (orOpt (rule_simple1 m) (orOpt (rule_retcc m)
  (orOpt (rule_rst m) (orOpt (rule_pushpop m)
  (orOpt (rule_exsp m) (orOpt (rule_jpixiy m)
  (orOpt (rule_neg m) (orOpt (rule_retin m)
  (orOpt (rule_im m) (orOpt (rule_ldair m)
  (orOpt (rule_rrdrld m) (orOpt (rule_block m)
  (orOpt (rule_incdec m) (orOpt (rule_addhl m)
  (orOpt (rule_adcsbchl m) (orOpt (rule_addixiy m)
  (orOpt (rule_bit m) (orOpt (rule_rot m)
  (orOpt (rule_jr m) (orOpt (rule_jp m)
  (orOpt (rule_call m) (orOpt (rule_in m)
  (orOpt (rule_out m) (orOpt (rule_ld m)
  (rule_alu m))))))))))))))))))))))))))))

/-- The unknown-instruction diagnostic of the classifier fallback. -/
def unknownMsg (ln : Nat) (m : Chars) : String :=
  "UNKNOWN INSTRUCTION (L" ++ toString ln ++ "): " ++ String.mk [squote]
    ++ String.mk m ++ String.mk [squote]

/-- Source `z80_size`: size in bytes of a Z80 instruction mnemonic string,
plus the diagnostics it prints.  An empty (stripped) string is 0 bytes; if
no rule of the ordered cascade matches, log the unknown-instruction
diagnostic and return 0. -/
def z80_size (m : String) (line_num : Nat) : Nat × List String :=
  if pyStrip m.data = [] then (0, [])
  else
    match z80_rules line_num (pyStrip m.data) with
    | some r => r
    | none => (0, [unknownMsg line_num (pyStrip m.data)])

/-- Python `raw_line.rstrip('\n\r')`. -/
def rstripNL (l : Chars) : Chars :=
  (l.reverse.dropWhile (fun c => c == '\n' || c == '\r')).reverse

/-- The comment-stripping scan of `main`: copy characters, entering and
leaving quoted literals on matching quote characters; an unquoted `;`
truncates the line. -/
def strip_comment : Chars → Bool → Char → Chars
  | [], _, _ => []
  | c :: rest, inQ, qc =>
    if inQ then c :: strip_comment rest (!(c == qc)) qc
    else if c == squote || c == dquote then c :: strip_comment rest true c
    else if c == ';' then []
    else c :: strip_comment rest false qc

/-- The `^\s*org\s+\$([0-9a-fA-F]+)` match (case-insensitive): the value of
the hexadecimal literal of an origin-setting line. -/
def orgMatch (code : Chars) : Option Nat :=
  match code.dropWhile isPyWS with
  | o :: r :: g :: rest =>
    if o.toLower == 'o' && r.toLower == 'r' && g.toLower == 'g' then
      match rest with
      | c :: _ =>
        if isPyWS c then
          match rest.dropWhile isPyWS with
          | d :: rest2 =>
            if d == '$' then
              let ds := rest2.takeWhile isHexDigit
              if ds.isEmpty then none else some (hexToNat ds)
            else none
          | [] => none
        else none
      | [] => none
    else none
  | _ => none

/-- The `re.search(r'\bequ\b', code, re.I)` scan: `prevW` says whether the
previous character was a word character (so the current position is at a
word boundary iff `prevW` is false). -/
def hasEquGo : Chars → Bool → Bool
  | [], _ => false
  | c :: rest, prevW =>
    (!prevW && c.toLower == 'e' &&
      (match rest with
       | q :: u :: tail =>
         q.toLower == 'q' && u.toLower == 'u' &&
         (match tail with
          | [] => true
          | d :: _ => !isWordChar d)
       | _ => false))
    || hasEquGo rest (isWordChar c)

/-- Whether a line contains `equ` as a whole word (case-insensitive): such
lines are constant definitions and are skipped. -/
def hasEqu (code : Chars) : Bool := hasEquGo code false

/-- The colon-label match `^([a-zA-Z_][a-zA-Z0-9_]*)\s*:`: the label and
the text after the colon. -/
def matchColonLabel (code : Chars) : Option (Chars × Chars) :=
  match code with
  | c :: rest =>
    if c.isAlpha || c == '_' then
      let w := rest.takeWhile isWordChar
      let after := (rest.dropWhile isWordChar).dropWhile isPyWS
      match after with
      | colon :: tail => if colon == ':' then some (c :: w, tail) else none
      | [] => none
    else none
  | [] => none

/-- The data-directive keywords recognized after a bare label. -/
def dirKws : List Chars :=
  ["defb".data, "defw".data, "defs".data, "db".data, "dw".data, "ds".data]

/-- Case-insensitive prefix test. -/
def ciPre : Chars → Chars → Bool
  | [], _ => true
  | _ :: _, [] => false
  | p :: ps, s :: ss => p == s.toLower && ciPre ps ss

/-- The bare-label-before-directive match
`^([a-zA-Z_][a-zA-Z0-9_]*)\s+(defb|defw|defs|db|dw|ds)\s` (case-
insensitive): the label, when the line is `label directive ...`. -/
def matchDirLabel (code : Chars) : Option Chars :=
  match code with
  | c :: rest =>
    if c.isAlpha || c == '_' then
      let w := rest.takeWhile isWordChar
      let after := rest.dropWhile isWordChar
      match after with
      | a :: _ =>
        if isPyWS a then
          let after2 := after.dropWhile isPyWS
          if dirKws.any (fun kw =>
              ciPre kw after2 &&
                (match (after2.drop kw.length).head? with
                 | some d => isPyWS d
                 | none => false)) then
            some (c :: w)
          else none
        else none
      | [] => none
    else none
  | [] => none

/-- Match `^(kw1|kw2)\s+(.*)` on an already lower-cased instruction,
returning the payload after the whitespace run. -/
def dirMatch (kw1 kw2 : Chars) (s : Chars) : Option Chars :=
  let tryKw (kw : Chars) : Option Chars :=
    if isPre kw s then
      match (s.drop kw.length).head? with
      | some c => if isPyWS c then some ((s.drop kw.length).dropWhile isPyWS) else none
      | none => none
    else none
  orOpt (tryKw kw1) (tryKw kw2)

/-- The action a source line induces on the engine state, as classified by
`main`'s per-line logic. -/
inductive LineAct where
  | skip : LineAct
  | setpc : Nat → LineAct
  | label_only : String → LineAct
  | data_b : Option String → String → LineAct
  | data_w : Option String → String → LineAct
  | data_s : Option String → String → LineAct
  | instr : Option String → String → LineAct
deriving DecidableEq

/-- The stripped code part of a raw line: trailing newline characters
removed, comment stripped (quote-aware), whitespace stripped. -/
def lineCode (raw : String) : Chars :=
  pyStrip (strip_comment (rstripNL raw.data) false ' ')

/-- Label extraction of `main`: colon-label first, else bare label before a
data directive; returns the optional label and the instruction text. -/
def extractLabel (code : Chars) : Option Chars × Chars :=
  match matchColonLabel code with
  | some (lbl, tail) => (some lbl, pyStrip tail)
  | none =>
    match matchDirLabel code with
    | some lbl => (some lbl, pyStrip (code.drop lbl.length))
    | none => (none, code)

/-- Directive-or-instruction dispatch on the lower-cased instruction
text. -/
def classifyDispatch (lbl : Option String) (il : Chars) : LineAct :=
  match dirMatch "defb".data "db".data il with
  | some payload => LineAct.data_b lbl (String.mk payload)
  | none =>
    match dirMatch "defw".data "dw".data il with
    | some payload => LineAct.data_w lbl (String.mk payload)
    | none =>
      match dirMatch "defs".data "ds".data il with
      | some payload => LineAct.data_s lbl (String.mk payload)
      | none => LineAct.instr lbl (String.mk il)

/-- Dispatch of a non-empty, non-`org`, non-`equ` code line: record the
label, then classify the instruction as a data directive or a plain
instruction. -/
def classifyTail (code : Chars) : LineAct :=
  if (extractLabel code).2 = [] then
    match (extractLabel code).1 with
    | some l => LineAct.label_only (String.mk l)
    | none => LineAct.skip
  else
    classifyDispatch ((extractLabel code).1.map String.mk)
      (pyStrip (lowerStr (extractLabel code).2))

/-- Classification of one raw source line, following `main` in order:
comment stripping, the `org` match, the `equ` skip, label extraction,
then the data-directive dispatch on the lower-cased instruction. -/
def classify (raw : String) : LineAct :=
  if lineCode raw = [] then LineAct.skip
  else
    match orgMatch (lineCode raw) with
    | some v => LineAct.setpc v
    | none =>
      if hasEqu (lineCode raw) then LineAct.skip
      else classifyTail (lineCode raw)

/-- The engine state: the program counter and the label table (a Python
dict, modelled as an insertion-ordered association list). -/
structure EngineState where
  pc : Int
  labels : List (String × Int)
deriving DecidableEq

/-- Python dict assignment `labels[label] = pc`: update in place if the key
exists, else append. -/
def dictInsert (l : List (String × Int)) (k : String) (v : Int) : List (String × Int) :=
  if l.any (fun p => p.1 == k) then
    l.map (fun p => if p.1 == k then (p.1, v) else p)
  else l ++ [(k, v)]

/-- Record the optional label of a line at the current (pre-advance)
program counter. -/
def applyLabel (st : EngineState) : Option String → List (String × Int)
  | none => st.labels
  | some lbl => dictInsert st.labels lbl st.pc

/-- Processing of one source line by `main`'s loop body (`ln` is the 1-based
line number, used only in diagnostics). -/
def process_line (st : EngineState) (raw : String) (ln : Nat) : EngineState :=
  match classify raw with
  | LineAct.skip => st
  | LineAct.setpc v => { pc := (v : Int), labels := st.labels }
  | LineAct.label_only lbl => { pc := st.pc, labels := dictInsert st.labels lbl st.pc }
  | LineAct.data_b lbl payload =>
    { pc := st.pc + count_defb payload, labels := applyLabel st lbl }
  | LineAct.data_w lbl payload =>
    { pc := st.pc + (count_defw payload : Int), labels := applyLabel st lbl }
  | LineAct.data_s lbl payload =>
    { pc := st.pc + (eval_expr ((split_commas payload).headD "")).1, labels := applyLabel st lbl }
  | LineAct.instr lbl text =>
    { pc := st.pc + ((z80_size text ln).1 : Int), labels := applyLabel st lbl }

/-- Fold `process_line` over the remaining lines, numbering them from
`ln`. -/
def runFrom (st : EngineState) (ln : Nat) : List String → EngineState
  | [] => st
  | l :: ls => runFrom (process_line st l ln) (ln + 1) ls

/-- Run the whole engine from the initial state (counter 0, empty label
table), lines numbered from 1. -/
def runLines (lines : List String) : EngineState :=
  runFrom ⟨0, []⟩ 1 lines

/-- The distinct addresses of the label table, in first-seen order (the
iteration order used to build `addr_to_labels`). -/
def firstOccur (l : List Int) : List Int :=
  l.foldl (fun acc a => if a ∈ acc then acc else acc ++ [a]) []

/-- The label names recorded at an address, in insertion order. -/
def namesAt (labels : List (String × Int)) (a : Int) : List String :=
  (labels.filter (fun p => p.2 == a)).map (fun p => p.1)

/-- Python `'/'.join`. -/
def joinSlash : List String → String
  | [] => ""
  | [x] => x
  | x :: y :: xs => x ++ "/" ++ joinSlash (y :: xs)

/-- The result consolidator: group the label table by address, order the
groups by ascending numeric address, join aliasing names with `/`. -/
def consolidate (labels : List (String × Int)) : List (Int × String) :=
  let addrs := List.insertionSort (· ≤ ·) (firstOccur (labels.map (fun p => p.2)))
  addrs.map (fun a => (a, joinSlash (namesAt labels a)))

/-- Lowercase hexadecimal rendering of an address, Python `format(a, 'x')`. -/
def toHexStr (a : Int) : String :=
  if a < 0 then "-" ++ String.mk (Nat.toDigits 16 a.natAbs)
  else String.mk (Nat.toDigits 16 a.toNat)

/-- The final rendered mapping: hexadecimal address strings to label
names. -/
def render (labels : List (String × Int)) : List (String × String) :=
  (consolidate labels).map (fun p => (toHexStr p.1, p.2))

/-- The payload of the spec's byte-reservation example
`defb 1,2,'ab',3`. -/
def c3input : String :=
  String.mk ['1', ',', '2', ',', squote, 'a', 'b', squote, ',', '3']

/-- The raw example line `defb "a,b;c"` with an embedded comma and
semicolon inside the quoted string. -/
def c4line : String :=
  String.mk (['d', 'e', 'f', 'b', ' ', dquote] ++ ['a', ',', 'b', ';', 'c', dquote])

/-- The quoted payload `"a,b;c"` of `c4line`. -/
def c4payload : String :=
  String.mk ([dquote] ++ ['a', ',', 'b', ';', 'c', dquote])

/-- Whether a line classifies as an origin directive. -/
def isOrgLine (raw : String) : Bool :=
  match classify raw with
  | LineAct.setpc _ => true
  | _ => false

/-- The per-line proviso under which a line cannot move the program
counter backwards: a space-reservation expression must evaluate to a
non-negative value and a byte-reservation payload must size to a
non-negative count (instructions, word directives and origin lines need
no proviso). -/
def line_ok (raw : String) : Bool :=
  match classify raw with
  | LineAct.data_b _ payload => decide (0 ≤ count_defb payload)
  | LineAct.data_s _ payload => decide (0 ≤ (eval_expr ((split_commas payload).headD "")).1)
  | _ => true

/-- A name usable as a colon label: non-empty, leading letter or
underscore, word characters, and not the keyword `equ` (in any case). -/
def validColonName (n : String) : Bool :=
  match n.data with
  | [] => false
  | c :: rest =>
    (c.isAlpha || c == '_') && (c :: rest).all isWordChar
      && !eqChars (lowerStr (c :: rest)) "equ".data

theorem data_append (a b : String) : (a ++ b).data = a.data ++ b.data := rfl

theorem orOpt_none {α : Type} (b : Option α) : orOpt none b = b := rfl

theorem orOpt_some {α : Type} (x : α) (b : Option α) : orOpt (some x) b = some x := rfl

theorem orOpt_eq_some {α : Type} {a b : Option α} {r : α} (h : orOpt a b = some r) :
    a = some r ∨ b = some r := by
  cases a with
  | some x => exact Or.inl (by simpa [orOpt] using h)
  | none => exact Or.inr (by simpa [orOpt] using h)

theorem orOpt_eq_none {α : Type} {a b : Option α} (h : orOpt a b = none) :
    a = none ∧ b = none := by
  cases a with
  | some x => simp [orOpt] at h
  | none => exact ⟨rfl, by simpa [orOpt] using h⟩

theorem isPre_append (p r : Chars) : isPre p (p ++ r) = true := by
  induction p with
  | nil => rfl
  | cons c t ih => simp [isPre, ih]

theorem beq_false_of_pred {p : Char → Bool} {c x : Char}
    (hc : p c = true) (hx : p x = false) : (c == x) = false := by
  cases hbe : (c == x) with
  | true =>
    have hcx : c = x := eq_of_beq hbe
    rw [hcx, hx] at hc
    exact absurd hc (by simp)
  | false => rfl

theorem dropWhile_all_false {q : Char → Bool} :
    ∀ l : Chars, (∀ c ∈ l, q c = false) → l.dropWhile q = l := by
  intro l h
  cases l with
  | nil => rfl
  | cons c t => simp [List.dropWhile_cons, h c (by simp)]

/-- Stripping leaves a string intact when its first and last characters
are not whitespace. -/
theorem pyStrip_sandwich (c d : Char) (t : Chars)
    (hc : isPyWS c = false) (hd : isPyWS d = false) :
    pyStrip (c :: (t ++ [d])) = c :: (t ++ [d]) := by
  unfold pyStrip rstripWS
  rw [List.dropWhile_cons, hc]
  simp only [Bool.false_eq_true, if_false]
  rw [show (c :: (t ++ [d])).reverse = d :: (t.reverse ++ [c]) by simp]
  rw [List.dropWhile_cons, hd]
  simp only [Bool.false_eq_true, if_false]
  rw [show (d :: (t.reverse ++ [c])) = (c :: (t ++ [d])).reverse by simp]
  exact List.reverse_reverse _

/-- Stripping a string with a non-whitespace prefix keeps the prefix and
right-strips the remainder. -/
theorem pyStrip_concrete_append (c : Char) (t r : Chars) (hc : isPyWS c = false)
    (hl : ((c :: t).reverse.head?.map isPyWS) = some false) :
    pyStrip ((c :: t) ++ r) = (c :: t) ++ rstripWS r := by
  rcases hrev : (c :: t).reverse with _ | ⟨d, u⟩
  · exact absurd hrev (by simp)
  · have hd : isPyWS d = false := by
      rw [hrev] at hl
      simpa using hl
    unfold pyStrip rstripWS
    rw [List.cons_append, List.dropWhile_cons, hc]
    simp only [Bool.false_eq_true, if_false]
    rw [show (c :: (t ++ r)).reverse = r.reverse ++ (c :: t).reverse by simp,
      hrev, List.dropWhile_append]
    by_cases he : (r.reverse.dropWhile isPyWS).isEmpty
    · rw [if_pos he, List.dropWhile_cons, hd]
      simp only [Bool.false_eq_true, if_false]
      rw [show (d :: u) = (c :: t).reverse from hrev.symm]
      simp only [List.reverse_reverse]
      rw [List.isEmpty_iff.mp he]
      simp
    · rw [if_neg he, List.reverse_append, hrev.symm]
      simp

/-- Claim C3 counterexample: the byte-reservation sizer does not return 6
on the payload of `defb 1,2,'ab',3`. -/
theorem c3_counterexample : count_defb c3input ≠ 6 := by decide

/-- Claim C3, amended: the byte-reservation sizer applied to the payload
of `defb 1,2,'ab',3` returns 5 bytes (three scalar items plus the two
characters of the quoted pair, which contributes its length minus the two
quote characters). -/
theorem c3_theorem : count_defb c3input = 5 := by decide

/-- Claim C4 counterexample: the line `defb "a,b;c"` does not size as 3
data bytes. -/
theorem c4_counterexample : (process_line ⟨0, []⟩ c4line 1).pc ≠ 3 := by decide

set_option maxHeartbeats 1000000 in
/-- Claim C4, amended: for the input line `defb "a,b;c"`, the
comment-stripping scan leaves the line intact (the embedded semicolon does
not truncate it), the comma-aware tokenizer keeps the quoted string as one
item (the embedded comma does not split it), and the byte-reservation
sizer sizes it as 5 data bytes (one per character between the quotes). -/
theorem c4_theorem :
    strip_comment (rstripNL c4line.data) false ' ' = c4line.data
  ∧ split_commas c4payload = [c4payload]
  ∧ classify c4line = LineAct.data_b none c4payload
  ∧ count_defb c4payload = 5
  ∧ (process_line ⟨0, []⟩ c4line 1).pc = 5 := by
  refine ⟨by decide, by decide, by decide, by decide, by decide⟩

/-- Claim C8: for every input expression text, the Expression Evaluator
(a total function, so it never raises to its caller) returns the
evaluated integer with no diagnostics whenever the evaluation of the
substituted text succeeds, and on any evaluation failure emits one
diagnostic naming the original and the substituted text and returns 0. -/
theorem c8_theorem (expr : String) :
    (∀ v : Int, evalCore (eval_subst expr) = some v → eval_expr expr = (v, []))
  ∧ (evalCore (eval_subst expr) = none →
      eval_expr expr = (0, ["Cannot eval: " ++ expr ++ " -> " ++ String.mk (eval_subst expr)])) := by
  constructor
  · intro v h
    unfold eval_expr
    rw [h]
  · intro h
    unfold eval_expr
    rw [h]

/-- Witness for C8: a successful evaluation returns the integer, a failing
one logs and returns 0. -/
theorem c8_witness :
    eval_expr "1+2" = (3, [])
  ∧ eval_expr "qq" = (0, ["Cannot eval: " ++ "qq" ++ " -> " ++ String.mk (eval_subst "qq")]) :=
  ⟨(c8_theorem ("1+2")).1 3 (by decide), (c8_theorem ("qq")).2 (by decide)⟩

/-- Claim C5 counterexample: the program counter can decrease below zero
on a non-origin line; a space reservation whose expression evaluates
negative (`defs 0-1`) and a byte directive with a lone-quote item
(`defb '`) both drive the counter from 0 to -1. -/
theorem c5_counterexample :
    (runLines ["defs 0-1"]).pc < 0
  ∧ (runLines [String.mk ['d', 'e', 'f', 'b', ' ', squote]]).pc < 0 :=
  ⟨by decide, by decide⟩

theorem process_line_pc_mono (st : EngineState) (l : String) (n : Nat)
    (hok : line_ok l = true) (hno : isOrgLine l = false) :
    st.pc ≤ (process_line st l n).pc := by
  cases h : classify l with
  | skip => simp [process_line, h]
  | setpc v => simp [isOrgLine, h] at hno
  | label_only lbl => simp [process_line, h]
  | data_b lbl payload =>
    have hc : (0 : Int) ≤ count_defb payload := by
      unfold line_ok at hok
      rw [h] at hok
      exact of_decide_eq_true hok
    simp only [process_line, h]
    omega
  | data_w lbl payload =>
    simp only [process_line, h]
    omega
  | data_s lbl payload =>
    have hc : (0 : Int) ≤ (eval_expr ((split_commas payload).headD "")).1 := by
      unfold line_ok at hok
      rw [h] at hok
      exact of_decide_eq_true hok
    simp only [process_line, h]
    omega
  | instr lbl text =>
    simp only [process_line, h]
    omega

theorem process_line_pc_nonneg (st : EngineState) (l : String) (n : Nat)
    (hok : line_ok l = true) (hpc : 0 ≤ st.pc) : 0 ≤ (process_line st l n).pc := by
  cases h : classify l with
  | setpc v =>
    simp only [process_line, h]
    omega
  | _ =>
    refine le_trans hpc (process_line_pc_mono st l n hok ?_)
    all_goals simp [isOrgLine, h]

theorem runFrom_pc_nonneg :
    ∀ (lines : List String) (st : EngineState) (n : Nat),
      (∀ l ∈ lines, line_ok l = true) → 0 ≤ st.pc → 0 ≤ (runFrom st n lines).pc := by
  intro lines
  induction lines with
  | nil =>
    intro st n _ h
    simpa [runFrom] using h
  | cons l ls ih =>
    intro st n hall hpc
    rw [runFrom]
    exact ih _ _ (fun x hx => hall x (by simp [hx]))
      (process_line_pc_nonneg st l n (hall l (by simp)) hpc)

/-- Claim C5, amended: starting from 0 the program counter never becomes
negative and never decreases except at an origin reset, PROVIDED every
byte-reservation payload sizes non-negatively and every space-reservation
expression evaluates non-negatively (`line_ok`); without that proviso the
counter can go negative (see the counterexample `defs 0-1`).  Every other
line kind (instruction, word directive, label, origin) advances
non-negatively unconditionally. -/
theorem c5_theorem :
    (∀ (st : EngineState) (l : String) (n : Nat),
        line_ok l = true → isOrgLine l = false → st.pc ≤ (process_line st l n).pc)
  ∧ ∀ (lines : List String), (∀ l ∈ lines, line_ok l = true) → 0 ≤ (runLines lines).pc := by
  constructor
  · exact process_line_pc_mono
  · intro lines hall
    exact runFrom_pc_nonneg lines ⟨0, []⟩ 1 hall (by simp)

/-- Witness for C5: a concrete non-origin line does not decrease the
counter, and a concrete run stays non-negative. -/
theorem c5_witness :
    (⟨3, []⟩ : EngineState).pc ≤ (process_line ⟨3, []⟩ "defs 10" 1).pc
  ∧ 0 ≤ (runLines ["start:", "ld a,5", "org $10", "defb 1,2"]).pc :=
  ⟨c5_theorem.1 ⟨3, []⟩ "defs 10" 1 (by decide) (by decide),
   c5_theorem.2 _ (by decide)⟩

theorem range_ldhl (ln : Nat) (m : Chars) (r : Nat × List String)
    (h : rule_ldhl ln m = some r) : r.1 ∈ [0, 1, 2, 3, 4, 6] := by
  simp only [rule_ldhl] at h
  repeat' split at h
  all_goals try rw [Option.some.injEq] at h
  all_goals try subst r
  all_goals first
  | injection h
  | simp

theorem range_ldsynth (ln : Nat) (m : Chars) (r : Nat × List String)
    (h : rule_ldsynth ln m = some r) : r.1 ∈ [0, 1, 2, 3, 4, 6] := by
  simp only [rule_ldsynth] at h
  repeat' split at h
  all_goals try rw [Option.some.injEq] at h
  all_goals try subst r
  all_goals first
  | injection h
  | simp

theorem range_andsynth (ln : Nat) (m : Chars) (r : Nat × List String)
    (h : rule_andsynth ln m = some r) : r.1 ∈ [0, 1, 2, 3, 4, 6] := by
  simp only [rule_andsynth] at h
  repeat' split at h
  all_goals try rw [Option.some.injEq] at h
  all_goals try subst r
  all_goals first
  | injection h
  | simp

theorem range_addsynth (ln : Nat) (m : Chars) (r : Nat × List String)
    (h : rule_addsynth ln m = some r) : r.1 ∈ [0, 1, 2, 3, 4, 6] := by
  simp only [rule_addsynth] at h
  repeat' split at h
  all_goals try rw [Option.some.injEq] at h
  all_goals try subst r
  all_goals first
  | injection h
  | simp

theorem range_simple1 (m : Chars) (r : Nat × List String)
    (h : rule_simple1 m = some r) : r.1 ∈ [0, 1, 2, 3, 4, 6] := by
  simp only [rule_simple1] at h
  repeat' split at h
  all_goals try rw [Option.some.injEq] at h
  all_goals try subst r
  all_goals first
  | injection h
  | simp

theorem range_retcc (m : Chars) (r : Nat × List String)
    (h : rule_retcc m = some r) : r.1 ∈ [0, 1, 2, 3, 4, 6] := by
  simp only [rule_retcc] at h
  repeat' split at h
  all_goals try rw [Option.some.injEq] at h
  all_goals try subst r
  all_goals first
  | injection h
  | simp

theorem range_rst (m : Chars) (r : Nat × List String)
    (h : rule_rst m = some r) : r.1 ∈ [0, 1, 2, 3, 4, 6] := by
  simp only [rule_rst] at h
  repeat' split at h
  all_goals try rw [Option.some.injEq] at h
  all_goals try subst r
  all_goals first
  | injection h
  | simp

theorem range_pushpop (m : Chars) (r : Nat × List String)
    (h : rule_pushpop m = some r) : r.1 ∈ [0, 1, 2, 3, 4, 6] := by
  simp only [rule_pushpop, pushpop_go] at h
  repeat' split at h
  all_goals try rw [Option.some.injEq] at h
  all_goals try subst r
  all_goals first
  | injection h
  | simp

theorem range_exsp (m : Chars) (r : Nat × List String)
    (h : rule_exsp m = some r) : r.1 ∈ [0, 1, 2, 3, 4, 6] := by
  simp only [rule_exsp] at h
  repeat' split at h
  all_goals try rw [Option.some.injEq] at h
  all_goals try subst r
  all_goals first
  | injection h
  | simp

theorem range_jpixiy (m : Chars) (r : Nat × List String)
    (h : rule_jpixiy m = some r) : r.1 ∈ [0, 1, 2, 3, 4, 6] := by
  simp only [rule_jpixiy] at h
  repeat' split at h
  all_goals try rw [Option.some.injEq] at h
  all_goals try subst r
  all_goals first
  | injection h
  | simp

theorem range_neg (m : Chars) (r : Nat × List String)
    (h : rule_neg m = some r) : r.1 ∈ [0, 1, 2, 3, 4, 6] := by
  simp only [rule_neg] at h
  repeat' split at h
  all_goals try rw [Option.some.injEq] at h
  all_goals try subst r
  all_goals first
  | injection h
  | simp

theorem range_retin (m : Chars) (r : Nat × List String)
    (h : rule_retin m = some r) : r.1 ∈ [0, 1, 2, 3, 4, 6] := by
  simp only [rule_retin] at h
  repeat' split at h
  all_goals try rw [Option.some.injEq] at h
  all_goals try subst r
  all_goals first
  | injection h
  | simp

theorem range_im (m : Chars) (r : Nat × List String)
    (h : rule_im m = some r) : r.1 ∈ [0, 1, 2, 3, 4, 6] := by
  simp only [rule_im] at h
  repeat' split at h
  all_goals try rw [Option.some.injEq] at h
  all_goals try subst r
  all_goals first
  | injection h
  | simp

theorem range_ldair (m : Chars) (r : Nat × List String)
    (h : rule_ldair m = some r) : r.1 ∈ [0, 1, 2, 3, 4, 6] := by
  simp only [rule_ldair] at h
  repeat' split at h
  all_goals try rw [Option.some.injEq] at h
  all_goals try subst r
  all_goals first
  | injection h
  | simp

theorem range_rrdrld (m : Chars) (r : Nat × List String)
    (h : rule_rrdrld m = some r) : r.1 ∈ [0, 1, 2, 3, 4, 6] := by
  simp only [rule_rrdrld] at h
  repeat' split at h
  all_goals try rw [Option.some.injEq] at h
  all_goals try subst r
  all_goals first
  | injection h
  | simp

theorem range_block (m : Chars) (r : Nat × List String)
    (h : rule_block m = some r) : r.1 ∈ [0, 1, 2, 3, 4, 6] := by
  simp only [rule_block] at h
  repeat' split at h
  all_goals try rw [Option.some.injEq] at h
  all_goals try subst r
  all_goals first
  | injection h
  | simp

theorem range_incdec (m : Chars) (r : Nat × List String)
    (h : rule_incdec m = some r) : r.1 ∈ [0, 1, 2, 3, 4, 6] := by
  simp only [rule_incdec, incdec_go] at h
  repeat' split at h
  all_goals try rw [Option.some.injEq] at h
  all_goals try subst r
  all_goals first
  | injection h
  | simp

theorem range_addhl (m : Chars) (r : Nat × List String)
    (h : rule_addhl m = some r) : r.1 ∈ [0, 1, 2, 3, 4, 6] := by
  simp only [rule_addhl] at h
  repeat' split at h
  all_goals try rw [Option.some.injEq] at h
  all_goals try subst r
  all_goals first
  | injection h
  | simp

theorem range_adcsbchl (m : Chars) (r : Nat × List String)
    (h : rule_adcsbchl m = some r) : r.1 ∈ [0, 1, 2, 3, 4, 6] := by
  simp only [rule_adcsbchl] at h
  repeat' split at h
  all_goals try rw [Option.some.injEq] at h
  all_goals try subst r
  all_goals first
  | injection h
  | simp

theorem range_addixiy (m : Chars) (r : Nat × List String)
    (h : rule_addixiy m = some r) : r.1 ∈ [0, 1, 2, 3, 4, 6] := by
  simp only [rule_addixiy] at h
  repeat' split at h
  all_goals try rw [Option.some.injEq] at h
  all_goals try subst r
  all_goals first
  | injection h
  | simp

theorem range_bit (m : Chars) (r : Nat × List String)
    (h : rule_bit m = some r) : r.1 ∈ [0, 1, 2, 3, 4, 6] := by
  simp only [rule_bit] at h
  repeat' split at h
  all_goals try rw [Option.some.injEq] at h
  all_goals try subst r
  all_goals first
  | injection h
  | simp

theorem range_rot (m : Chars) (r : Nat × List String)
    (h : rule_rot m = some r) : r.1 ∈ [0, 1, 2, 3, 4, 6] := by
  simp only [rule_rot] at h
  repeat' split at h
  all_goals try rw [Option.some.injEq] at h
  all_goals try subst r
  all_goals first
  | injection h
  | simp

theorem range_jr (m : Chars) (r : Nat × List String)
    (h : rule_jr m = some r) : r.1 ∈ [0, 1, 2, 3, 4, 6] := by
  simp only [rule_jr] at h
  repeat' split at h
  all_goals try rw [Option.some.injEq] at h
  all_goals try subst r
  all_goals first
  | injection h
  | simp

theorem range_jp (m : Chars) (r : Nat × List String)
    (h : rule_jp m = some r) : r.1 ∈ [0, 1, 2, 3, 4, 6] := by
  simp only [rule_jp] at h
  repeat' split at h
  all_goals try rw [Option.some.injEq] at h
  all_goals try subst r
  all_goals first
  | injection h
  | simp

theorem range_call (m : Chars) (r : Nat × List String)
    (h : rule_call m = some r) : r.1 ∈ [0, 1, 2, 3, 4, 6] := by
  simp only [rule_call] at h
  repeat' split at h
  all_goals try rw [Option.some.injEq] at h
  all_goals try subst r
  all_goals first
  | injection h
  | simp

theorem range_in (m : Chars) (r : Nat × List String)
    (h : rule_in m = some r) : r.1 ∈ [0, 1, 2, 3, 4, 6] := by
  simp only [rule_in] at h
  repeat' split at h
  all_goals try rw [Option.some.injEq] at h
  all_goals try subst r
  all_goals first
  | injection h
  | simp

theorem range_out (m : Chars) (r : Nat × List String)
    (h : rule_out m = some r) : r.1 ∈ [0, 1, 2, 3, 4, 6] := by
  simp only [rule_out] at h
  repeat' split at h
  all_goals try rw [Option.some.injEq] at h
  all_goals try subst r
  all_goals first
  | injection h
  | simp

theorem range_of_eq {k : Nat} {s : List String} {r : Nat × List String}
    (h : some (k, s) = some r) (hk : k ∈ [0, 1, 2, 3, 4, 6]) :
    r.1 ∈ [0, 1, 2, 3, 4, 6] := by
  rw [Option.some.injEq] at h
  subst h
  exact hk

theorem range_ld_cases (dst src : Chars) (r : Nat × List String)
    (h : ld_cases dst src = some r) : r.1 ∈ [0, 1, 2, 3, 4, 6] := by
  unfold ld_cases at h
  by_cases h1 : (is_reg8 dst && is_reg8 src) = true
  · rw [if_pos h1] at h; exact range_of_eq h (by simp)
  rw [if_neg h1] at h
  by_cases h2 : (is_reg8 dst && is_hl_indirect src) = true
  · rw [if_pos h2] at h; exact range_of_eq h (by simp)
  rw [if_neg h2] at h
  by_cases h3 : (is_hl_indirect dst && is_reg8 src) = true
  · rw [if_pos h3] at h; exact range_of_eq h (by simp)
  rw [if_neg h3] at h
  by_cases h4 : is_hl_indirect dst = true
  · rw [if_pos h4] at h; exact range_of_eq h (by simp)
  rw [if_neg h4] at h
  by_cases h5 : (is_reg8 dst && !(src.head? == some '(')) = true
  · rw [if_pos h5] at h; exact range_of_eq h (by simp)
  rw [if_neg h5] at h
  by_cases h6 : (is_reg8 dst && is_ixiy_indirect src) = true
  · rw [if_pos h6] at h; exact range_of_eq h (by simp)
  rw [if_neg h6] at h
  by_cases h7 : (is_ixiy_indirect dst && is_reg8 src) = true
  · rw [if_pos h7] at h; exact range_of_eq h (by simp)
  rw [if_neg h7] at h
  by_cases h8 : is_ixiy_indirect dst = true
  · rw [if_pos h8] at h; exact range_of_eq h (by simp)
  rw [if_neg h8] at h
  by_cases h9 : (eqChars dst ['a'] && (eqChars src "(bc)".data || eqChars src "(de)".data)) = true
  · rw [if_pos h9] at h; exact range_of_eq h (by simp)
  rw [if_neg h9] at h
  by_cases h10 : ((eqChars dst "(bc)".data || eqChars dst "(de)".data) && eqChars src ['a']) = true
  · rw [if_pos h10] at h; exact range_of_eq h (by simp)
  rw [if_neg h10] at h
  by_cases h11 : (eqChars dst "sp".data && (eqChars src "ix".data || eqChars src "iy".data)) = true
  · rw [if_pos h11] at h; exact range_of_eq h (by simp)
  rw [if_neg h11] at h
  by_cases h12 : membC dst ["bc".data, "de".data, "hl".data, "sp".data] = true
  · rw [if_pos h12] at h
    by_cases h12a : (src.head? == some '(') = true
    · rw [if_pos h12a] at h
      by_cases h12b : is_ixiy_indirect src = true
      · rw [if_pos h12b] at h; exact range_of_eq h (by simp)
      rw [if_neg h12b] at h
      by_cases h12c : eqChars dst "hl".data = true
      · rw [if_pos h12c] at h; exact range_of_eq h (by simp)
      rw [if_neg h12c] at h
      exact range_of_eq h (by simp)
    rw [if_neg h12a] at h
    exact range_of_eq h (by simp)
  rw [if_neg h12] at h
  by_cases h13 : (eqChars dst "ix".data || eqChars dst "iy".data) = true
  · rw [if_pos h13] at h; exact range_of_eq h (by simp)
  rw [if_neg h13] at h
  by_cases h14 : (dst.head? == some '(' && !is_hl_indirect dst && !is_ixiy_indirect dst
      && !eqChars dst "(bc)".data && !eqChars dst "(de)".data) = true
  · rw [if_pos h14] at h
    by_cases h14a : eqChars src ['a'] = true
    · rw [if_pos h14a] at h; exact range_of_eq h (by simp)
    rw [if_neg h14a] at h
    by_cases h14b : eqChars src "hl".data = true
    · rw [if_pos h14b] at h; exact range_of_eq h (by simp)
    rw [if_neg h14b] at h
    by_cases h14c : membC src ["bc".data, "de".data, "sp".data] = true
    · rw [if_pos h14c] at h; exact range_of_eq h (by simp)
    rw [if_neg h14c] at h
    by_cases h14d : (eqChars src "ix".data || eqChars src "iy".data) = true
    · rw [if_pos h14d] at h; exact range_of_eq h (by simp)
    rw [if_neg h14d] at h
    simp at h
  rw [if_neg h14] at h
  by_cases h15 : (eqChars dst ['a'] && src.head? == some '('
      && !membC src ["(bc)".data, "(de)".data, "(hl)".data] && !is_ixiy_indirect src) = true
  · rw [if_pos h15] at h; exact range_of_eq h (by simp)
  rw [if_neg h15] at h
  simp at h

theorem range_ld (m : Chars) (r : Nat × List String)
    (h : rule_ld m = some r) : r.1 ∈ [0, 1, 2, 3, 4, 6] := by
  simp only [rule_ld] at h
  repeat' split at h
  all_goals first
  | exact range_ld_cases _ _ _ h
  | injection h

theorem range_alu_try (op m : Chars) (r : Nat × List String)
    (h : alu_try op m = some r) : r.1 ∈ [0, 1, 2, 3, 4, 6] := by
  simp only [alu_try] at h
  repeat' split at h
  all_goals try rw [Option.some.injEq] at h
  all_goals try subst r
  all_goals first
  | injection h
  | simp

theorem range_alu (m : Chars) (r : Nat × List String)
    (h : rule_alu m = some r) : r.1 ∈ [0, 1, 2, 3, 4, 6] := by
  unfold rule_alu at h
  rcases orOpt_eq_some h with h | h
  · exact range_alu_try _ _ _ h
  rcases orOpt_eq_some h with h | h
  · exact range_alu_try _ _ _ h
  rcases orOpt_eq_some h with h | h
  · exact range_alu_try _ _ _ h
  rcases orOpt_eq_some h with h | h
  · exact range_alu_try _ _ _ h
  rcases orOpt_eq_some h with h | h
  · exact range_alu_try _ _ _ h
  rcases orOpt_eq_some h with h | h
  · exact range_alu_try _ _ _ h
  rcases orOpt_eq_some h with h | h
  · exact range_alu_try _ _ _ h
  · exact range_alu_try _ _ _ h

theorem z80_rules_range (ln : Nat) (m : Chars) (r : Nat × List String)
    (h : z80_rules ln m = some r) : r.1 ∈ [0, 1, 2, 3, 4, 6] := by
  unfold z80_rules at h
  rcases orOpt_eq_some h with h | h
  · exact range_ldhl _ _ _ h
  rcases orOpt_eq_some h with h | h
  · exact range_ldsynth _ _ _ h
  rcases orOpt_eq_some h with h | h
  · exact range_andsynth _ _ _ h
  rcases orOpt_eq_some h with h | h
  · exact range_addsynth _ _ _ h
  rcases orOpt_eq_some h with h | h
  · exact range_simple1 _ _ h
  rcases orOpt_eq_some h with h | h
  · exact range_retcc _ _ h
  rcases orOpt_eq_some h with h | h
  · exact range_rst _ _ h
  rcases orOpt_eq_some h with h | h
  · exact range_pushpop _ _ h
  rcases orOpt_eq_some h with h | h
  · exact range_exsp _ _ h
  rcases orOpt_eq_some h with h | h
  · exact range_jpixiy _ _ h
  rcases orOpt_eq_some h with h | h
  · exact range_neg _ _ h
  rcases orOpt_eq_some h with h | h
  · exact range_retin _ _ h
  rcases orOpt_eq_some h with h | h
  · exact range_im _ _ h
  rcases orOpt_eq_some h with h | h
  · exact range_ldair _ _ h
  rcases orOpt_eq_some h with h | h
  · exact range_rrdrld _ _ h
  rcases orOpt_eq_some h with h | h
  · exact range_block _ _ h
  rcases orOpt_eq_some h with h | h
  · exact range_incdec _ _ h
  rcases orOpt_eq_some h with h | h
  · exact range_addhl _ _ h
  rcases orOpt_eq_some h with h | h
  · exact range_adcsbchl _ _ h
  rcases orOpt_eq_some h with h | h
  · exact range_addixiy _ _ h
  rcases orOpt_eq_some h with h | h
  · exact range_bit _ _ h
  rcases orOpt_eq_some h with h | h
  · exact range_rot _ _ h
  rcases orOpt_eq_some h with h | h
  · exact range_jr _ _ h
  rcases orOpt_eq_some h with h | h
  · exact range_jp _ _ h
  rcases orOpt_eq_some h with h | h
  · exact range_call _ _ h
  rcases orOpt_eq_some h with h | h
  · exact range_in _ _ h
  rcases orOpt_eq_some h with h | h
  · exact range_out _ _ h
  rcases orOpt_eq_some h with h | h
  · exact range_ld _ _ h
  · exact range_alu _ _ h

/-- Claim C10: the Instruction-Size Classifier is total (a Lean function,
so it terminates and never raises) and for every input string and line
number the returned size is one of 0, 1, 2, 3, 4, 6. -/
theorem c10_theorem (m : String) (ln : Nat) :
    (z80_size m ln).1 ∈ [0, 1, 2, 3, 4, 6] := by
  unfold z80_size
  split
  · decide
  · split
    · next r heq => exact z80_rules_range _ _ _ heq
    · simp

theorem ldhl_none_ln {ln ln' : Nat} {m : Chars}
    (h : rule_ldhl ln m = none) : rule_ldhl ln' m = none := by
  unfold rule_ldhl at h ⊢
  by_cases hc : (isPre "ld hl,(ix+".data m || isPre "ld hl,(iy+".data m) = true
  · rw [if_pos hc] at h
    exact absurd h (by simp)
  · rw [if_neg hc]

theorem ldsynth_none_ln {ln ln' : Nat} {m : Chars}
    (h : rule_ldsynth ln m = none) : rule_ldsynth ln' m = none := by
  unfold rule_ldsynth at h ⊢
  cases hm : ldsynthMatch m with
  | none => rfl
  | some p =>
    obtain ⟨a, lbl⟩ := p
    rw [hm] at h
    simp only [] at h ⊢
    by_cases hb : bareLabelOk lbl = true
    · rw [if_pos hb] at h
      exact absurd h (by simp)
    · rw [if_neg hb]

theorem andsynth_none_ln {ln ln' : Nat} {m : Chars}
    (h : rule_andsynth ln m = none) : rule_andsynth ln' m = none := by
  unfold rule_andsynth at h ⊢
  cases hm : andsynthMatch m with
  | none => rfl
  | some lbl =>
    rw [hm] at h
    simp only [] at h ⊢
    by_cases hb : bareLabelOk lbl = true
    · rw [if_pos hb] at h
      exact absurd h (by simp)
    · rw [if_neg hb]

theorem addsynth_none_ln {ln ln' : Nat} {m : Chars}
    (h : rule_addsynth ln m = none) : rule_addsynth ln' m = none := by
  unfold rule_addsynth at h ⊢
  cases hm : addsynthMatch m with
  | none => rfl
  | some lbl =>
    rw [hm] at h
    simp only [] at h ⊢
    by_cases hb : bareLabelOk lbl = true
    · rw [if_pos hb] at h
      exact absurd h (by simp)
    · rw [if_neg hb]

/-- Whether a rule of the cascade matches does not depend on the line
number (the line number only appears in diagnostics). -/
theorem z80_rules_none_ln {m : Chars} (h : z80_rules 0 m = none) (ln : Nat) :
    z80_rules ln m = none := by
  unfold z80_rules at h ⊢
  obtain ⟨h1, h⟩ := orOpt_eq_none h
  obtain ⟨h2, h⟩ := orOpt_eq_none h
  obtain ⟨h3, h⟩ := orOpt_eq_none h
  obtain ⟨h4, h⟩ := orOpt_eq_none h
  rw [ldhl_none_ln h1, ldsynth_none_ln h2, andsynth_none_ln h3, addsynth_none_ln h4]
  simpa [orOpt] using h

/-- Claim C9: for every normalized instruction text matched by no
classifier rule, `z80_size` logs the unknown-instruction diagnostic
naming the line number and the text and returns 0; so any line whose
instruction is that text advances the program counter by exactly 0, and
processing continues (the engine is a total fold). -/
theorem c9_theorem (m : String) (ln : Nat)
    (hne : pyStrip m.data ≠ [])
    (hno : z80_rules 0 (pyStrip m.data) = none) :
    z80_size m ln = (0, [unknownMsg ln (pyStrip m.data)])
  ∧ ∀ (st : EngineState) (raw : String) (lbl : Option String) (n : Nat),
      classify raw = LineAct.instr lbl m → (process_line st raw n).pc = st.pc := by
  have hz : ∀ k : Nat, z80_size m k = (0, [unknownMsg k (pyStrip m.data)]) := by
    intro k
    unfold z80_size
    rw [if_neg hne, z80_rules_none_ln hno]
  refine ⟨hz ln, ?_⟩
  intro st raw lbl n hcl
  unfold process_line
  rw [hcl]
  simp [hz n]

theorem rule_ldhl_fires (ln : Nat) (m : Chars)
    (hc : (isPre "ld hl,(ix+".data m || isPre "ld hl,(iy+".data m) = true) :
    z80_rules ln m = some (6, [simplifiedMsg ln "ld hl,(ix+d) -> 6 bytes" m]) := by
  unfold z80_rules rule_ldhl
  rw [if_pos hc]
  rfl

theorem z80_size_ldhl (d : String) (ln : Nat) (pre : String)
    (hpre : pre = "ld hl,(ix+" ∨ pre = "ld hl,(iy+") :
    (z80_size (pre ++ d) ln).1 = 6 := by
  have hne10 : ∀ (x : Chars) (p : Chars), p ≠ [] → ¬(p ++ x = []) := by
    intro x p hp hEq
    exact hp (List.append_eq_nil.mp hEq).1
  obtain rfl | rfl := hpre
  · have hms : pyStrip (("ld hl,(ix+" ++ d)).data = "ld hl,(ix+".data ++ rstripWS d.data := by
      rw [data_append]
      exact pyStrip_concrete_append 'l'
        ('d' :: ' ' :: 'h' :: 'l' :: ',' :: '(' :: 'i' :: 'x' :: '+' :: []) d.data
        (by decide) (by decide)
    unfold z80_size
    rw [hms, if_neg (hne10 _ _ (by decide)),
      rule_ldhl_fires ln _ (by rw [isPre_append]; simp)]
  · have hms : pyStrip (("ld hl,(iy+" ++ d)).data = "ld hl,(iy+".data ++ rstripWS d.data := by
      rw [data_append]
      exact pyStrip_concrete_append 'l'
        ('d' :: ' ' :: 'h' :: 'l' :: ',' :: '(' :: 'i' :: 'y' :: '+' :: []) d.data
        (by decide) (by decide)
    unfold z80_size
    rw [hms, if_neg (hne10 _ _ (by decide)),
      rule_ldhl_fires ln _ (by rw [show isPre "ld hl,(iy+".data ("ld hl,(iy+".data ++ rstripWS d.data) = true from isPre_append _ _]; simp)]

theorem mk_data (l : Chars) : (String.mk l).data = l := rfl

/-- Claim C1 counterexample: the 2-byte simplified load rule covers only
b, c, d, e — `ld a,(foo)` sizes to 3 (the real `LD A,(nn)` path) and
`ld h,(foo)` matches no rule at all (0 bytes), so the claim fails for the
registers a, h, l. -/
theorem c1_counterexample :
    (z80_size "ld a,(foo)" 0).1 ≠ 2 ∧ (z80_size "ld h,(foo)" 0).1 ≠ 2 :=
  ⟨by decide, by decide⟩

/-- Claim C1, amended: for every register r in {b, c, d, e} (not a, h, l)
and every bare-label operand (a lower-case identifier that is not hl, bc
or de and does not begin with ix or iy), the classifier returns 2 bytes
for `ld r,(label)`, the dialect override taking precedence over the
general load rules. -/
theorem c1_theorem (r : Char) (lbl : Chars) (ln : Nat)
    (hr : r = 'b' ∨ r = 'c' ∨ r = 'd' ∨ r = 'e')
    (hid : isLowerIdent lbl = true)
    (hbare : bareLabelOk lbl = true) :
    (z80_size (String.mk ('l' :: 'd' :: ' ' :: r :: ',' :: '(' :: (lbl ++ [')']))) ln).1 = 2 := by
  have hrb : (r == 'b' || r == 'c' || r == 'd' || r == 'e') = true := by
    rcases hr with rfl | rfl | rfl | rfl <;> decide
  have hnoth : ('h' == r) = false := by
    rcases hr with rfl | rfl | rfl | rfl <;> decide
  have hstrip : pyStrip ('l' :: 'd' :: ' ' :: r :: ',' :: '(' :: (lbl ++ [')']))
      = 'l' :: 'd' :: ' ' :: r :: ',' :: '(' :: (lbl ++ [')']) := by
    have hs := pyStrip_sandwich 'l' ')' ('d' :: ' ' :: r :: ',' :: '(' :: lbl)
      (by decide) (by decide)
    simpa using hs
  have h1 : rule_ldhl ln ('l' :: 'd' :: ' ' :: r :: ',' :: '(' :: (lbl ++ [')'])) = none := by
    have hcond : (isPre "ld hl,(ix+".data ('l' :: 'd' :: ' ' :: r :: ',' :: '(' :: (lbl ++ [')']))
        || isPre "ld hl,(iy+".data ('l' :: 'd' :: ' ' :: r :: ',' :: '(' :: (lbl ++ [')'])))
          = false := by
      simp [isPre, hnoth]
    unfold rule_ldhl
    rw [hcond]
    simp
  have h2 : rule_ldsynth ln ('l' :: 'd' :: ' ' :: r :: ',' :: '(' :: (lbl ++ [')']))
      = some (2, [simplifiedMsg ln "ld reg,(addr) -> 2 bytes"
          ('l' :: 'd' :: ' ' :: r :: ',' :: '(' :: (lbl ++ [')']))]) := by
    unfold rule_ldsynth ldsynthMatch
    simp [List.getLast?_concat, List.dropLast_concat, hid, hbare, hrb]
  have hch : z80_rules ln ('l' :: 'd' :: ' ' :: r :: ',' :: '(' :: (lbl ++ [')']))
      = some (2, [simplifiedMsg ln "ld reg,(addr) -> 2 bytes"
          ('l' :: 'd' :: ' ' :: r :: ',' :: '(' :: (lbl ++ [')']))]) := by
    unfold z80_rules
    rw [h1, orOpt_none, h2, orOpt_some]
  unfold z80_size
  rw [mk_data, hstrip, if_neg (by simp), hch]

/-- Witness for C1: `ld b,(foo)` sizes to 2 bytes. -/
theorem c1_witness :
    (z80_size (String.mk ('l' :: 'd' :: ' ' :: 'b' :: ',' :: '(' :: (['f', 'o', 'o'] ++ [')']))) 0).1
      = 2 :=
  c1_theorem 'b' ['f', 'o', 'o'] 0 (Or.inl rfl) (by decide) (by decide)

/-- Claim C2 counterexample: the register-pair-from-indexed-pointer sizes
are not 6 for the minus-displacement form nor for pairs other than hl:
`ld hl,(ix-5)` and `ld bc,(ix+5)` size to 3, not 6. -/
theorem c2_counterexample :
    (z80_size "ld hl,(ix-5)" 0).1 ≠ 6 ∧ (z80_size "ld bc,(ix+5)" 0).1 ≠ 6 :=
  ⟨by decide, by decide⟩

/-- Claim C2, amended: only the destination `hl` with a `+` displacement
matches the 6-byte simplified rule — every text beginning `ld hl,(ix+` or
`ld hl,(iy+` sizes to 6 — while the `-` displacement form and the other
register pairs fall to the general load rules and size to 3. -/
theorem c2_theorem :
    (∀ (d : String) (ln : Nat),
        (z80_size ("ld hl,(ix+" ++ d) ln).1 = 6 ∧ (z80_size ("ld hl,(iy+" ++ d) ln).1 = 6)
  ∧ (z80_size "ld hl,(ix-5)" 0).1 = 3 ∧ (z80_size "ld bc,(ix+5)" 0).1 = 3 := by
  refine ⟨fun d ln => ⟨?_, ?_⟩, by decide, by decide⟩
  · exact z80_size_ldhl d ln "ld hl,(ix+" (Or.inl rfl)
  · exact z80_size_ldhl d ln "ld hl,(iy+" (Or.inr rfl)

theorem hex_specials {c : Char} (hc : isHexDigit c = true) :
    isPyWS c = false ∧ (c == squote) = false ∧ (c == dquote) = false ∧ (c == ';') = false
      ∧ (c == '\n') = false ∧ (c == '\r') = false := by
  have h1 : (c == ' ') = false := beq_false_of_pred hc (by decide)
  have h2 : (c == '\t') = false := beq_false_of_pred hc (by decide)
  have h3 : (c == '\n') = false := beq_false_of_pred hc (by decide)
  have h4 : (c == '\r') = false := beq_false_of_pred hc (by decide)
  have h5 : (c == Char.ofNat 11) = false := beq_false_of_pred hc (by decide)
  have h6 : (c == Char.ofNat 12) = false := beq_false_of_pred hc (by decide)
  refine ⟨by simp [isPyWS, h1, h2, h3, h4, h5, h6], ?_, ?_, ?_, h3, h4⟩
  · exact beq_false_of_pred hc (by decide)
  · exact beq_false_of_pred hc (by decide)
  · exact beq_false_of_pred hc (by decide)

theorem word_specials {c : Char} (hc : isWordChar c = true) :
    isPyWS c = false ∧ (c == squote) = false ∧ (c == dquote) = false ∧ (c == ';') = false
      ∧ (c == '\n') = false ∧ (c == '\r') = false := by
  have h1 : (c == ' ') = false := beq_false_of_pred hc (by decide)
  have h2 : (c == '\t') = false := beq_false_of_pred hc (by decide)
  have h3 : (c == '\n') = false := beq_false_of_pred hc (by decide)
  have h4 : (c == '\r') = false := beq_false_of_pred hc (by decide)
  have h5 : (c == Char.ofNat 11) = false := beq_false_of_pred hc (by decide)
  have h6 : (c == Char.ofNat 12) = false := beq_false_of_pred hc (by decide)
  refine ⟨by simp [isPyWS, h1, h2, h3, h4, h5, h6], ?_, ?_, ?_, h3, h4⟩
  · exact beq_false_of_pred hc (by decide)
  · exact beq_false_of_pred hc (by decide)
  · exact beq_false_of_pred hc (by decide)

/-- The comment scan copies a line with no quote and no semicolon
characters unchanged. -/
theorem strip_comment_all (l : Chars) (qc : Char)
    (h : ∀ c ∈ l, (c == squote) = false ∧ (c == dquote) = false ∧ (c == ';') = false) :
    strip_comment l false qc = l := by
  induction l generalizing qc with
  | nil => rfl
  | cons c t ih =>
    obtain ⟨hq1, hq2, hsc⟩ := h c (by simp)
    unfold strip_comment
    simp only [Bool.false_eq_true, if_false, hq1, hq2, hsc, Bool.or_self]
    rw [ih qc (fun x hx => h x (by simp [hx]))]

theorem rstripNL_all (l : Chars)
    (h : ∀ c ∈ l, (c == '\n') = false ∧ (c == '\r') = false) : rstripNL l = l := by
  unfold rstripNL
  rw [dropWhile_all_false _ (fun c hc => by
    obtain ⟨h1, h2⟩ := h c (List.mem_reverse.mp hc)
    simp [h1, h2])]
  exact List.reverse_reverse l

theorem rstripWS_all (l : Chars) (h : ∀ c ∈ l, isPyWS c = false) : rstripWS l = l := by
  unfold rstripWS
  rw [dropWhile_all_false _ (fun c hc => h c (List.mem_reverse.mp hc))]
  exact List.reverse_reverse l

/-- The origin match on a well-formed `org $hex` line yields the value of
the hexadecimal literal. -/
theorem orgMatch_org (h : Chars) (hne : h ≠ []) (hhex : ∀ c ∈ h, isHexDigit c = true) :
    orgMatch ("org $".data ++ h) = some (hexToNat h) := by
  have htake : h.takeWhile isHexDigit = h := by
    have := @List.takeWhile_append_of_pos Char isHexDigit h [] hhex
    simpa using this
  show orgMatch ('o' :: 'r' :: 'g' :: ' ' :: '$' :: h) = some (hexToNat h)
  unfold orgMatch
  rw [List.dropWhile_cons]
  simp only [show isPyWS 'o' = false from rfl, Bool.false_eq_true, if_false]
  simp only [show ('o'.toLower == 'o' && 'r'.toLower == 'r' && 'g'.toLower == 'g') = true
    from by decide, if_true]
  simp only [show isPyWS ' ' = true from rfl, if_true]
  rw [List.dropWhile_cons]
  simp only [show isPyWS ' ' = true from rfl, if_true]
  rw [List.dropWhile_cons]
  simp only [show isPyWS '$' = false from rfl, Bool.false_eq_true, if_false]
  simp only [show ('$' == '$') = true from rfl, if_true]
  rw [htake]
  simp [List.isEmpty_iff, hne]

theorem classify_org {raw : String} {v : Nat} (h : orgMatch (lineCode raw) = some v) :
    classify raw = LineAct.setpc v := by
  have hne : lineCode raw ≠ [] := by
    intro h0
    rw [h0, show orgMatch ([] : Chars) = none from rfl] at h
    exact absurd h (by simp)
  unfold classify
  rw [if_neg hne, h]

/-- Claim C6: an origin-setting line (`org` with a `$`-prefixed
hexadecimal literal) sets the program counter exactly to the literal's
value from any prior counter, contributes no bytes, and records no
label. -/
theorem c6_theorem :
    (∀ (st : EngineState) (raw : String) (n : Nat) (v : Nat),
        orgMatch (lineCode raw) = some v →
        process_line st raw n = ⟨(v : Int), st.labels⟩)
  ∧ (∀ (st : EngineState) (hx : String) (n : Nat), hx.data ≠ [] →
        (∀ c ∈ hx.data, isHexDigit c = true) →
        process_line st ("org $" ++ hx) n = ⟨(hexToNat hx.data : Int), st.labels⟩) := by
  have part1 : ∀ (st : EngineState) (raw : String) (n : Nat) (v : Nat),
      orgMatch (lineCode raw) = some v → process_line st raw n = ⟨(v : Int), st.labels⟩ := by
    intro st raw n v h
    have hcl : classify raw = LineAct.setpc v := classify_org h
    unfold process_line
    rw [hcl]
  refine ⟨part1, ?_⟩
  intro st hx n hne hhex
  apply part1
  have hmem : ∀ c ∈ "org $".data ++ hx.data,
      (c == squote) = false ∧ (c == dquote) = false ∧ (c == ';') = false := by
    intro c hc
    rcases List.mem_append.mp hc with hc | hc
    · fin_cases hc <;> exact ⟨by decide, by decide, by decide⟩
    · obtain ⟨_, h2, h3, h4, _, _⟩ := hex_specials (hhex c hc)
      exact ⟨h2, h3, h4⟩
  have hmemNL : ∀ c ∈ "org $".data ++ hx.data,
      (c == '\n') = false ∧ (c == '\r') = false := by
    intro c hc
    rcases List.mem_append.mp hc with hc | hc
    · fin_cases hc <;> exact ⟨by decide, by decide⟩
    · obtain ⟨_, _, _, _, h5, h6⟩ := hex_specials (hhex c hc)
      exact ⟨h5, h6⟩
  have hlc : lineCode ("org $" ++ hx) = "org $".data ++ hx.data := by
    unfold lineCode
    rw [data_append, rstripNL_all _ hmemNL, strip_comment_all _ _ hmem]
    rw [show ("org $".data ++ hx.data : Chars)
        = ('o' :: ['r', 'g', ' ', '$']) ++ hx.data from rfl]
    rw [pyStrip_concrete_append 'o' ['r', 'g', ' ', '$'] hx.data (by decide) (by decide)]
    rw [rstripWS_all _ (fun c hc => (hex_specials (hhex c hc)).1)]
  rw [hlc]
  exact orgMatch_org hx.data hne hhex

/-- Witness for C6: `org $1ab` from counter 5 resets the counter to 427
and records nothing. -/
theorem c6_witness :
    process_line ⟨5, []⟩ ("org $" ++ "1ab") 2 = ⟨(427 : Int), []⟩ := by
  have := c6_theorem.2 ⟨5, []⟩ "1ab" 2 (by decide) (by decide)
  simpa using this

theorem word_not_colon {c : Char} (hc : isWordChar c = true) : (c == ':') = false :=
  beq_false_of_pred hc (by decide)

/-- The origin regex does not match a colon-label line (a word run
followed by a colon contains no whitespace, which `org\s+` requires). -/
theorem orgMatch_label_line (c : Char) (w : Chars) (hc : isWordChar c = true)
    (hw : ∀ x ∈ w, isWordChar x = true) : orgMatch (c :: (w ++ [':'])) = none := by
  unfold orgMatch
  rw [List.dropWhile_cons, (word_specials hc).1]
  simp only [Bool.false_eq_true, if_false]
  match w, hw with
  | [], _ => rfl
  | [x], hw => simp [show (':'.toLower == 'g') = false from rfl]
  | x :: y :: t, hw =>
    simp only [List.cons_append]
    by_cases hcond : (c.toLower == 'o' && x.toLower == 'r' && y.toLower == 'g') = true
    · rw [if_pos hcond]
      match ht : t with
      | [] =>
        simp [show isPyWS ':' = false from rfl]
      | z :: t2 =>
        have hz : isWordChar z = true := hw z (by simp)
        simp [(word_specials hz).1]
    · rw [if_neg hcond]

theorem hasEquGo_words (l : Chars) (hw : ∀ x ∈ l, isWordChar x = true) :
    hasEquGo (l ++ [':']) true = false := by
  induction l with
  | nil => rfl
  | cons c t ih =>
    rw [List.cons_append]
    unfold hasEquGo
    rw [hw c (by simp)]
    simp only [Bool.not_true, Bool.false_and, Bool.false_or]
    exact ih (fun x hx => hw x (by simp [hx]))

/-- The whole-word `equ` search fails on a colon-label line whose name is
not (case-insensitively) `equ`. -/
theorem hasEqu_label_line (c : Char) (w : Chars) (hc : isWordChar c = true)
    (hw : ∀ x ∈ w, isWordChar x = true)
    (hne : lowerStr (c :: w) ≠ "equ".data) : hasEqu (c :: (w ++ [':'])) = false := by
  unfold hasEqu hasEquGo
  have htail : hasEquGo (w ++ [':']) (isWordChar c) = false := by
    rw [hc]
    exact hasEquGo_words w hw
  rw [htail, Bool.or_false]
  simp only [Bool.not_false, Bool.true_and]
  match w, hw, hne with
  | [], _, _ => simp
  | [x], hw, hne => simp [show (':'.toLower == 'u') = false from rfl]
  | x :: y :: t, hw, hne =>
    simp only [List.cons_append]
    match t with
    | z :: t2 =>
      have hz : isWordChar z = true := hw z (by simp)
      have hz2 : (!isWordChar z) = false := by rw [hz]; rfl
      simp [hz2]
    | [] =>
      simp only [List.nil_append]
      rcases Bool.eq_false_or_eq_true
        (c.toLower == 'e' && (x.toLower == 'q' && y.toLower == 'u' && !isWordChar ':'))
        with hb | hb
      · exfalso
        apply hne
        simp only [Bool.and_eq_true, beq_iff_eq] at hb
        obtain ⟨h1, h2, h3⟩ := hb
        simp only [lowerStr, List.map_cons, List.map_nil, h1, h2, h3]
      · exact hb

/-- The colon-label regex extracts exactly the word-run name and leaves
an empty instruction on a bare `name:` line. -/
theorem matchColonLabel_label (c : Char) (w : Chars)
    (halpha : (c.isAlpha || c == '_') = true)
    (hw : ∀ x ∈ w, isWordChar x = true) :
    matchColonLabel (c :: (w ++ [':'])) = some (c :: w, []) := by
  unfold matchColonLabel
  simp only [List.takeWhile_append_of_pos hw, List.dropWhile_append_of_pos hw]
  rw [if_pos halpha]
  simp only [show List.takeWhile isWordChar [':'] = [] from rfl,
    show List.dropWhile isWordChar [':'] = [':'] from rfl,
    show List.dropWhile isPyWS [':'] = [':'] from rfl, List.append_nil]
  rfl

/-- Classification of a bare colon-label line: the label is recorded with
an empty instruction. -/
theorem classify_colon_label (n : String) (hv : validColonName n = true) :
    classify (n ++ ":") = LineAct.label_only n := by
  rcases hd : n.data with _ | ⟨c, w⟩
  · unfold validColonName at hv
    rw [hd] at hv
    exact absurd hv (by simp)
  unfold validColonName at hv
  rw [hd] at hv
  simp only [] at hv
  rw [Bool.and_eq_true, Bool.and_eq_true] at hv
  obtain ⟨⟨halpha, hall⟩, hneq⟩ := hv
  have hall2 : ∀ x ∈ c :: w, isWordChar x = true := by
    intro x hx
    exact List.all_eq_true.mp hall x hx
  have hc : isWordChar c = true := hall2 c (by simp)
  have hw : ∀ x ∈ w, isWordChar x = true := fun x hx => hall2 x (by simp [hx])
  have hneq2 : lowerStr (c :: w) ≠ "equ".data := by
    intro h0
    rw [h0] at hneq
    exact absurd hneq (by decide)
  have hlc : lineCode (n ++ ":") = c :: (w ++ [':']) := by
    unfold lineCode
    rw [data_append, hd, show (":").data = [':'] from rfl]
    rw [show ((c :: w) ++ [':'] : Chars) = c :: (w ++ [':']) from by simp]
    have hmem : ∀ x ∈ c :: (w ++ [':']),
        (x == squote) = false ∧ (x == dquote) = false ∧ (x == ';') = false := by
      intro x hx
      rcases List.mem_cons.mp hx with hx | hx
      · subst hx
        obtain ⟨_, a2, a3, a4, _, _⟩ := word_specials hc
        exact ⟨a2, a3, a4⟩
      rcases List.mem_append.mp hx with hx | hx
      · obtain ⟨_, a2, a3, a4, _, _⟩ := word_specials (hw x hx)
        exact ⟨a2, a3, a4⟩
      · simp only [List.mem_singleton] at hx
        subst hx
        exact ⟨by decide, by decide, by decide⟩
    have hmemNL : ∀ x ∈ c :: (w ++ [':']),
        (x == '\n') = false ∧ (x == '\r') = false := by
      intro x hx
      rcases List.mem_cons.mp hx with hx | hx
      · subst hx
        obtain ⟨_, _, _, _, a5, a6⟩ := word_specials hc
        exact ⟨a5, a6⟩
      rcases List.mem_append.mp hx with hx | hx
      · obtain ⟨_, _, _, _, a5, a6⟩ := word_specials (hw x hx)
        exact ⟨a5, a6⟩
      · simp only [List.mem_singleton] at hx
        subst hx
        exact ⟨by decide, by decide⟩
    rw [rstripNL_all _ hmemNL, strip_comment_all _ _ hmem]
    exact pyStrip_sandwich c ':' w (word_specials hc).1 (by decide)
  unfold classify
  rw [hlc, if_neg (by simp), orgMatch_label_line c w hc hw]
  rw [hasEqu_label_line c w hc hw hneq2]
  simp only [Bool.false_eq_true, if_false]
  unfold classifyTail extractLabel
  rw [matchColonLabel_label c w halpha hw]
  simp only
  rw [if_pos (show pyStrip ([] : Chars) = [] from rfl)]
  rw [show String.mk (c :: w) = n from by rw [← hd]]

theorem firstOccur_nodup_aux (l : List Int) :
    ∀ acc : List Int, acc.Nodup →
      (l.foldl (fun acc a => if a ∈ acc then acc else acc ++ [a]) acc).Nodup := by
  induction l with
  | nil => intro acc h; exact h
  | cons a t ih =>
    intro acc h
    simp only [List.foldl_cons]
    by_cases ha : a ∈ acc
    · rw [if_pos ha]
      exact ih acc h
    · rw [if_neg ha]
      refine ih _ ?_
      simp [List.nodup_append, h, ha]

theorem firstOccur_nodup (l : List Int) : (firstOccur l).Nodup :=
  firstOccur_nodup_aux l [] (by simp)

/-- Claim C7: two colon-labels on consecutive zero-width lines are both
recorded at the same (unchanged) counter value; the consolidated output
has a single entry for that address joining the two names with `/` in
declaration order; and consolidated output is always in ascending numeric
address order. -/
theorem c7_theorem :
    (∀ (n1 n2 : String) (pc : Int) (k1 k2 : Nat),
        validColonName n1 = true → validColonName n2 = true → n1 ≠ n2 →
        process_line (process_line ⟨pc, []⟩ (n1 ++ ":") k1) (n2 ++ ":") k2
            = ⟨pc, [(n1, pc), (n2, pc)]⟩
          ∧ consolidate [(n1, pc), (n2, pc)] = [(pc, n1 ++ "/" ++ n2)])
  ∧ ∀ labels : List (String × Int),
      List.Sorted (· < ·) ((consolidate labels).map Prod.fst) := by
  constructor
  · intro n1 n2 pc k1 k2 hv1 hv2 hne
    have hst1 : process_line ⟨pc, []⟩ (n1 ++ ":") k1 = ⟨pc, [(n1, pc)]⟩ := by
      unfold process_line
      rw [classify_colon_label n1 hv1]
      simp [dictInsert]
    have hst2 : process_line ⟨pc, [(n1, pc)]⟩ (n2 ++ ":") k2
        = ⟨pc, [(n1, pc), (n2, pc)]⟩ := by
      unfold process_line
      rw [classify_colon_label n2 hv2]
      simp only
      unfold dictInsert
      rw [show (([(n1, pc)] : List (String × Int)).any fun p => p.1 == n2) = false from by
        simp [beq_eq_false_iff_ne.mpr hne]]
      simp
    refine ⟨by rw [hst1, hst2], ?_⟩
    unfold consolidate
    have hfo : firstOccur ([(n1, pc), (n2, pc)].map (fun p => p.2)) = [pc] := by
      simp [firstOccur]
    rw [hfo]
    have hsort : List.insertionSort (· ≤ ·) [pc] = [pc] := by
      simp [List.insertionSort, List.orderedInsert]
    rw [hsort]
    simp [namesAt, joinSlash]
  · intro labels
    unfold consolidate
    rw [List.map_map]
    rw [show (Prod.fst ∘ fun a => ((a : Int), joinSlash (namesAt labels a))) = id from by
      funext a; rfl]
    rw [List.map_id]
    refine List.Sorted.lt_of_le ?_ ?_
    · exact List.sorted_insertionSort _ _
    · exact (List.perm_insertionSort _ _).symm.nodup (firstOccur_nodup _)

/-- Witness for C7: labels `alpha` and `beta` on consecutive lines from
counter 7 share address 7 and consolidate to one joined entry. -/
theorem c7_witness :
    process_line (process_line ⟨7, []⟩ ("alpha" ++ ":") 1) ("beta" ++ ":") 2
        = ⟨7, [("alpha", 7), ("beta", 7)]⟩
      ∧ consolidate [("alpha", 7), ("beta", 7)] = [(7, "alpha" ++ "/" ++ "beta")] :=
  (c7_theorem.1 "alpha" "beta" 7 1 2 (by decide) (by decide) (by decide))

/-- Witness for C9: the unmatched text `qux 1` logs and contributes 0. -/
theorem c9_witness :
    z80_size "qux 1" 3 = (0, [unknownMsg 3 (pyStrip "qux 1".data)])
  ∧ (process_line ⟨5, []⟩ "qux 1" 2).pc = (⟨5, []⟩ : EngineState).pc :=
  ⟨(c9_theorem ("qux 1") 3 (by decide) (by decide)).1,
   (c9_theorem ("qux 1") 3 (by decide) (by decide)).2 ⟨5, []⟩ "qux 1" none 2 (by decide)⟩

end CalcOffsets
